import Mathlib

/-!
# Verification of the negative-keywords tool CSV core

Shallow embedding of the repository's parsing / classification logic:

* `ReportTable.jsx` (src/unnamed/part_001): `parseMetricNumber`,
  `safeParseFloat`, `pickBestColumn`, `isCostPerConvKey`,
  `isConversionRateKey`, `detectMetricColumnsStrong`, and the metric sort
  comparator used in `visibleRows`.
* `src/features/report/parseSearchTermsCsv.js`: `findHeaderRowIndex`,
  `parseSimpleHeaderCsv`, `isTotalLabel`, `totalBucket`, `sortTotals`,
  `detectSearchTermColumn`, `detectCampaignColumn`, `detectAdGroupColumn`,
  `extractDateRange`, and the assembler `parseSearchTermsCsv`.
* `src/features/negatives/formatNegative.js`: `formatNegative`.
* `App.jsx` (src/unnamed/part_000): the negative-keyword reducer.

JavaScript strings are modelled as `List Char` (`Str`).  Host / third-party
behaviour is modelled explicitly:

* `String.prototype.toLowerCase` is modelled on the scripts the program
  targets (ASCII and Cyrillic); other characters are left unchanged.
* `localeCompare` is modelled as code-point lexicographic comparison.
* IEEE-754 arithmetic is modelled over `ℚ`: `parseFloat` is modelled as an
  exact rational parser of the same prefix grammar, and the `MISSING`
  sentinel `Number.NEGATIVE_INFINITY` as `Option.none`.
* The PapaParse CSV tokenizer is abstracted away: the assembler is modelled
  as a function of the decoded grid (list of rows of cells), which is what
  the JS code receives from `Papa.parse` with `header: false`; the
  `header: true` re-parse of simple mode is modelled by reading the first
  grid row as the field list, which is what PapaParse produces on the same
  text.
* `Array.prototype.sort` (stable in ECMAScript 2019+) is modelled by the
  stable `List.insertionSort`, and `crypto.randomUUID` by a fresh-id action
  parameter.
-/

/-- JavaScript strings, as lists of Unicode code points. -/
abbrev Str := List Char

namespace NKT

/-- The whitespace class used by `String.prototype.trim` and by `\s` in the
regexes of this code base (restricted to the characters that can occur in
the targeted inputs). -/
def jsWhitespace (c : Char) : Bool :=
  c = ' ' ∨ c = '\t' ∨ c = '\n' ∨ c = '\r' ∨ c = Char.ofNat 0x0b ∨
  c = Char.ofNat 0x0c ∨ c = Char.ofNat 0xa0 ∨ c = Char.ofNat 0xfeff

/-- `String.prototype.toLowerCase`, modelled on ASCII and Cyrillic (the two
scripts this program's header dictionaries use); other characters are
unchanged. -/
def jsToLowerChar (c : Char) : Char :=
  if 'A' ≤ c ∧ c ≤ 'Z' then Char.ofNat (c.toNat + 32)
  else if 'А' ≤ c ∧ c ≤ 'Я' then Char.ofNat (c.toNat + 32)
  else if c = 'Ё' then 'ё'
  else c

def jsToLower (s : Str) : Str := s.map jsToLowerChar

/-- `String.prototype.trim`. -/
def jsTrim (s : Str) : Str :=
  ((s.dropWhile jsWhitespace).reverse.dropWhile jsWhitespace).reverse

/-- `String.prototype.includes` (substring containment). -/
def includesSub (n : Str) : Str → Bool
  | [] => n.isEmpty
  | c :: rest => n.isPrefixOf (c :: rest) || includesSub n rest

/-- `haystack.includes(needle)` with the usual argument order of the JS
call sites `k.includes("...")`. -/
def jsIncludes (hay n : Str) : Bool := includesSub n hay

/-- `String.prototype.startsWith`. -/
def jsStartsWith (hay p : Str) : Bool := p.isPrefixOf hay

/-- `String.prototype.lastIndexOf` for a single character: `-1` when the
character does not occur, otherwise the index of its last occurrence. -/
def lastIndexOfAux (c : Char) : Str → Nat → Int → Int
  | [], _, acc => acc
  | x :: xs, i, acc => lastIndexOfAux c xs (i + 1) (if x = c then (i : Int) else acc)

def lastIndexOf (c : Char) (s : Str) : Int := lastIndexOfAux c s 0 (-1)

/-- `String.prototype.replace` with a single-character pattern: replaces the
first occurrence only. -/
def replaceFirst (pat rep : Char) : Str → Str
  | [] => []
  | c :: rest => if c = pat then rep :: rest else c :: replaceFirst pat rep rest

/-- `norm` of `ReportTable.jsx`: `String(s || "").trim().toLowerCase()`. -/
def norm (s : Str) : Str := jsToLower (jsTrim s)

/-! ## Locale-tolerant number parsing (`ReportTable.jsx`) -/

/-- The character class kept by `s.replace(/[^\d,.\-]/g, "")`. -/
def keptByStrip (c : Char) : Bool := c.isDigit ∨ c = ',' ∨ c = '.' ∨ c = '-'

def digitsToNat (ds : Str) : Nat :=
  ds.foldl (fun acc c => acc * 10 + (c.toNat - '0'.toNat)) 0

/-- `Number.parseFloat`, modelled exactly over `ℚ` for the exponent-free
strings this code produces (digits, `.`, `,`, `-`): optional sign, then the
longest prefix `digits [. digits]`; `none` models `NaN`. -/
def parseFloatQ (s : Str) : Option ℚ :=
  let (neg, rest) :=
    match s with
    | '-' :: r => (true, r)
    | '+' :: r => (false, r)
    | r => (false, r)
  let intPart := rest.takeWhile Char.isDigit
  let rest2 := rest.drop intPart.length
  let fracPart :=
    match rest2 with
    | '.' :: r2 => r2.takeWhile Char.isDigit
    | _ => []
  if intPart.isEmpty ∧ fracPart.isEmpty then none
  else
    -- the exact decimal value `intPart.fracPart`
    let mant : Nat := digitsToNat (intPart ++ fracPart)
    let v : ℚ := mkRat (Int.ofNat mant) (10 ^ fracPart.length)
    some (if neg then Rat.neg v else v)

/-- `safeParseFloat` of `ReportTable.jsx`; `none` models the
`Number.NEGATIVE_INFINITY` MISSING sentinel (the rational model has no
overflow, so finiteness only fails on `NaN`). -/
def safeParseFloat (s : Str) : Option ℚ := parseFloatQ s

/-- Models `parts = s.split(sep); dec = parts.pop();
parts.join("") + "." + dec` (used when the last separator is decimal):
every occurrence of the separator except the last is dropped, the last
occurrence is replaced by `'.'`; when the separator does not occur the
split has a single part and the result is `'.' :: s`. -/
def decimalRejoin (sep : Char) : Str → Str
  | [] => ['.']
  | c :: rest =>
    if sep ∈ c :: rest then
      (if c = sep then decimalRejoin sep rest else c :: decimalRejoin sep rest)
    else '.' :: c :: rest

/-- `parseMetricNumber` of `ReportTable.jsx`; the argument is `none` for
JS `null`/`undefined`, and the result is `none` for MISSING. -/
def parseMetricNumber (value : Option Str) : Option ℚ :=
  match value with
  | none => none
  | some v =>
    let s0 := jsTrim v
    if s0.isEmpty ∨ s0 = ['—'] ∨ s0 = ['-'] then none
    else
      let s := s0.filter keptByStrip
      let lastDot := lastIndexOf '.' s
      let lastComma := lastIndexOf ',' s
      if lastDot ≠ -1 ∧ lastComma ≠ -1 then
        -- both separators: the later one is decimal, the other removed
        if lastDot > lastComma then
          safeParseFloat (s.filter (fun c => ¬ c = ','))
        else
          safeParseFloat (replaceFirst ',' '.' (s.filter (fun c => ¬ c = '.')))
      else if lastComma ≠ -1 then
        let after : Int := (s.length : Int) - lastComma - 1
        if 1 ≤ after ∧ after ≤ 2 then
          safeParseFloat (decimalRejoin ',' s)
        else
          safeParseFloat (s.filter (fun c => ¬ c = ','))
      else if lastDot ≠ -1 then
        let after : Int := (s.length : Int) - lastDot - 1
        if 1 ≤ after ∧ after ≤ 2 then
          safeParseFloat (decimalRejoin '.' s)
        else
          safeParseFloat (s.filter (fun c => ¬ c = '.'))
      else
        safeParseFloat s

/-! ## Strong metric column detection (`ReportTable.jsx`) -/

def pickBestAux (scoreFn : Str → Nat) : List Str → Option Str → Nat → Option Str
  | [], best, _ => best
  | col :: rest, best, bestScore =>
    let score := scoreFn (norm col)
    if bestScore < score then pickBestAux scoreFn rest (some col) score
    else pickBestAux scoreFn rest best bestScore

/-- `pickBestColumn` of `ReportTable.jsx`: first column of strictly highest
positive score. -/
def pickBestColumn (columns : List Str) (scoreFn : Str → Nat) : Option Str :=
  pickBestAux scoreFn columns none 0

/-- The regex `/cost\s*\/\s*conv/` tested at one position. -/
def costSlashConvAt (s : Str) : Bool :=
  if ['c','o','s','t'].isPrefixOf s then
    match (s.drop 4).dropWhile jsWhitespace with
    | '/' :: r2 => ['c','o','n','v'].isPrefixOf (r2.dropWhile jsWhitespace)
    | _ => false
  else false

/-- The regex test `/cost\s*\/\s*conv/.test(k)` (search at every offset). -/
def testCostSlashConv : Str → Bool
  | [] => costSlashConvAt []
  | c :: rest => costSlashConvAt (c :: rest) || testCostSlashConv rest

/-- `isCostPerConvKey` of `ReportTable.jsx`. -/
def isCostPerConvKey (k : Str) : Bool :=
  testCostSlashConv k ||
  jsIncludes k "cost/conv".toList ||
  jsIncludes k "cost per conv".toList ||
  jsIncludes k "cost per conversion".toList ||
  jsIncludes k "cpa".toList ||
  (jsIncludes k "стоим".toList && jsIncludes k "конв".toList) ||
  (jsIncludes k "расход".toList && jsIncludes k "конв".toList)

/-- `isConversionRateKey` of `ReportTable.jsx`. -/
def isConversionRateKey (k : Str) : Bool :=
  jsIncludes k "conv. rate".toList ||
  jsIncludes k "conversion rate".toList ||
  jsIncludes k "конв. коэф".toList ||
  (jsIncludes k "конвер".toList && jsIncludes k "коэф".toList) ||
  jsIncludes k "%".toList

/-- The regex `/^word\s*\(.+\)$/` (a label, optional whitespace, then a
non-empty parenthesized suffix; `.` excludes line terminators). -/
def parenVariant (word : Str) (k : Str) : Bool :=
  if word.isPrefixOf k then
    match (k.drop word.length).dropWhile jsWhitespace with
    | '(' :: r2 =>
      decide (2 ≤ r2.length) && r2.getLast? = some ')' &&
        r2.dropLast.all (fun c => ¬ (c = '\n' ∨ c = '\r'))
    | _ => false
  else false

def costScore (k : Str) : Nat :=
  if isCostPerConvKey k then 0
  else if k = "cost".toList then 120
  else if parenVariant "cost".toList k then 115
  else if k = "расход".toList ∨ parenVariant "расход".toList k then 120
  else if k = "стоимость".toList ∨ parenVariant "стоимость".toList k then 120
  else if jsIncludes k "cost".toList ∧
      ¬ jsIncludes k "per".toList ∧ ¬ jsIncludes k "conv".toList ∧
      ¬ jsIncludes k "conversion".toList ∧ ¬ jsIncludes k "rate".toList ∧
      ¬ jsIncludes k "/".toList then 60
  else if (jsIncludes k "расход".toList ∨ jsIncludes k "стоимость".toList) ∧
      ¬ jsIncludes k "конв".toList ∧ ¬ jsIncludes k "коэф".toList ∧
      ¬ jsIncludes k "/".toList then 60
  else 0

def imprScore (k : Str) : Nat :=
  if k = "impr.".toList ∨ k = "impressions".toList then 110
  else if jsStartsWith k "impr".toList then 80
  else if jsIncludes k "impression".toList then 80
  else if jsIncludes k "показ".toList then 90
  else 0

def clicksScore (k : Str) : Nat :=
  if k = "clicks".toList ∨ k = "click".toList then 110
  else if jsIncludes k "click".toList then 80
  else if jsIncludes k "клик".toList then 80
  else 0

def convScore (k : Str) : Nat :=
  if isConversionRateKey k then 0
  else if k = "conversions".toList then 110
  else if k = "conv".toList ∨ k = "conv.".toList then 105
  else if jsIncludes k "conversion".toList then 80
  else if jsIncludes k "конверс".toList then 85
  else 0

def costPerConvScore (k : Str) : Nat := if isCostPerConvKey k then 100 else 0

structure MetricColumns where
  cost : Option Str
  impr : Option Str
  clicks : Option Str
  conv : Option Str
  costPerConv : Option Str
deriving DecidableEq, Repr

/-- `detectMetricColumnsStrong` of `ReportTable.jsx`. -/
def detectMetricColumnsStrong (columns : List Str) : MetricColumns :=
  { costPerConv := pickBestColumn columns costPerConvScore
    cost := pickBestColumn columns costScore
    impr := pickBestColumn columns imprScore
    clicks := pickBestColumn columns clicksScore
    conv := pickBestColumn columns convScore }

/-! ## The metric sort comparator of `visibleRows` (`ReportTable.jsx`) -/

/-- The direction multiplier: `sortDir === "asc" ? 1 : -1`. -/
def dirMul (sortDir : Str) : Int := if sortDir = "asc".toList then 1 else -1

/-- The comparator passed to `dataRows.sort` in `visibleRows`, applied to
the two rows' metric cell values (`none` = absent cell / JS `undefined`). -/
def visibleRowsCompare (sortDir : Str) (a b : Option Str) : Int :=
  let mul := dirMul sortDir
  let av := parseMetricNumber a
  let bv := parseMetricNumber b
  match av, bv with
  | none, none => 0
  | none, some _ => 1
  | some _, none => -1
  | some x, some y => if x = y then 0 else if x > y then 1 * mul else -1 * mul

/-! ## `parseSearchTermsCsv.js`: header detection and column mapping -/

/-- `stripBom`: drop one leading U+FEFF. -/
def stripBom (s : Str) : Str :=
  match s with
  | c :: rest => if c = Char.ofNat 0xfeff then rest else c :: rest
  | [] => []

/-- `normalizeHeader` of `parseSearchTermsCsv.js`. -/
def normalizeHeader (h : Str) : Str := jsToLower (jsTrim (stripBom h))

/-- A row's cells, as a JS object: association list with unique keys in
first-insertion order. -/
abbrev Obj := List (Str × Str)

/-- JS object property write `obj[k] = v`: replaces the value in place if
the key exists, otherwise appends. -/
def objSet {β : Type} (k : Str) (v : β) (o : List (Str × β)) : List (Str × β) :=
  if o.any (fun p => p.1 = k) then o.map (fun p => if p.1 = k then (k, v) else p)
  else o ++ [(k, v)]

/-- JS object property read `obj[k]`: `none` is `undefined`. -/
def objGet {β : Type} (o : List (Str × β)) (k : Str) : Option β :=
  (o.find? (fun p => p.1 = k)).map (·.2)

/-- `mapRowToObject` of `parseSearchTermsCsv.js` (`obj[columns[i]] = arr[i] ?? ""`;
a duplicate column name keeps the last cell, as in JS). -/
def mapRowToObject (columns cells : List Str) : Obj :=
  (List.range columns.length).foldl
    (fun obj i => objSet (columns.getD i []) (cells.getD i []) obj) []

/-- `emptyObjectForColumns` of `parseSearchTermsCsv.js`. -/
def emptyObjectForColumns (columns : List Str) : Obj :=
  columns.foldl (fun obj c => objSet c [] obj) []

/-- `joinRowCells` of `parseSearchTermsCsv.js` (array case). -/
def joinRowCells (row : List Str) : Str :=
  jsTrim (List.intercalate ", ".toList ((row.map jsTrim).filter (fun x => ¬ x.isEmpty)))

/-- `normalizeColumns` of `parseSearchTermsCsv.js`. -/
def normalizeColumns (headerCells : List Str) : List Str :=
  headerCells.mapIdx (fun i h =>
    let cleaned := jsTrim (stripBom h)
    if cleaned.isEmpty then "Column ".toList ++ (Nat.repr (i + 1)).toList else cleaned)

/-- The exact bilingual "search term" candidate set (shared by
`isSearchTermHeaderKey` and `detectSearchTermColumn`). -/
def searchTermExactCandidates : List Str :=
  ["search term".toList, "search terms".toList, "customer search term".toList,
   "search query".toList, "queries".toList,
   "поисковый запрос".toList, "поисковые запросы".toList,
   "поисковый термин".toList, "поисковые термины".toList,
   "поисковая фраза".toList, "поисковые фразы".toList]

/-- Exact membership in the bilingual search-term candidate set. -/
def searchTermExactKey (k : Str) : Bool := k ∈ searchTermExactCandidates

/-- English substring heuristic for a search-term header. -/
def searchTermEnHeuristic (k : Str) : Bool :=
  jsIncludes k "search".toList &&
    (jsIncludes k "term".toList || jsIncludes k "query".toList)

/-- Russian substring heuristic for a search-term header. -/
def searchTermRuHeuristic (k : Str) : Bool :=
  (jsIncludes k "поиск".toList || jsIncludes k "поисков".toList) &&
    (jsIncludes k "запрос".toList || jsIncludes k "термин".toList ||
      jsIncludes k "фраз".toList)

/-- `isSearchTermHeaderKey` of `parseSearchTermsCsv.js`. -/
def isSearchTermHeaderKey (key : Str) : Bool :=
  searchTermExactKey key ||
  searchTermEnHeuristic key || searchTermRuHeuristic key

/-- `findHeaderRowIndex` of `parseSearchTermsCsv.js` (all decoded rows are
cell arrays, so the `Array.isArray` guard is always satisfied). -/
def findHeaderRowIndexAux : Nat → List (List Str) → Int
  | _, [] => -1
  | i, row :: rest =>
    if row.length < 3 then findHeaderRowIndexAux (i + 1) rest
    else if row.any (fun c => isSearchTermHeaderKey (normalizeHeader c)) then (i : Int)
    else findHeaderRowIndexAux (i + 1) rest

def findHeaderRowIndex (rows : List (List Str)) : Int := findHeaderRowIndexAux 0 rows

/-- `detectSearchTermColumn` of `parseSearchTermsCsv.js`. -/
def detectSearchTermColumn (cols : List Str) : Str :=
  if cols.isEmpty then "Search term".toList
  else
    match cols.find? (fun c => searchTermExactKey (normalizeHeader c)) with
    | some c => c
    | none =>
      match cols.find? (fun c => searchTermEnHeuristic (normalizeHeader c)) with
      | some c => c
      | none =>
        match cols.find? (fun c => searchTermRuHeuristic (normalizeHeader c)) with
        | some c => c
        | none => cols.headD []

/-- `detectCampaignColumn` of `parseSearchTermsCsv.js`. -/
def detectCampaignColumn (cols : List Str) : Option Str :=
  if cols.isEmpty then none
  else
    let exactCandidates : List Str :=
      ["campaign".toList, "campaign name".toList, "campaigns".toList,
       "кампания".toList, "кампании".toList, "имя кампании".toList]
    match cols.find? (fun c => normalizeHeader c ∈ exactCandidates) with
    | some c => some c
    | none =>
      cols.find? (fun c =>
        jsIncludes (normalizeHeader c) "campaign".toList ||
        jsIncludes (normalizeHeader c) "кампан".toList)

/-- `detectAdGroupColumn` of `parseSearchTermsCsv.js`. -/
def detectAdGroupColumn (cols : List Str) : Option Str :=
  if cols.isEmpty then none
  else
    let exactCandidates : List Str :=
      ["ad group".toList, "adgroup".toList, "ad group name".toList,
       "ad groups".toList, "группа объявлений".toList,
       "группы объявлений".toList, "группа".toList]
    match cols.find? (fun c => normalizeHeader c ∈ exactCandidates) with
    | some c => some c
    | none =>
      cols.find? (fun c =>
        let k := normalizeHeader c
        jsIncludes k "ad group".toList || jsIncludes k "adgroup".toList ||
          (jsIncludes k "групп".toList && jsIncludes k "объяв".toList))

/-! ## Totals rows (`parseSearchTermsCsv.js`) -/

/-- `isTotalLabel` of `parseSearchTermsCsv.js`. -/
def isTotalLabel (term : Str) : Bool :=
  let k := normalizeHeader term
  jsStartsWith k "total:".toList || jsStartsWith k "итого:".toList ||
    jsStartsWith k "всего:".toList

/-- `totalBucket` of `parseSearchTermsCsv.js`. -/
def totalBucket (term : Str) : Str :=
  let cleaned := jsTrim term
  let parts := cleaned.splitOn ':'
  if parts.length < 2 then normalizeHeader cleaned
  else normalizeHeader (jsTrim (List.intercalate [':'] (parts.drop 1)))

/-- `String.prototype.localeCompare`, modelled as code-point lexicographic
comparison. -/
def localeCompare : Str → Str → Int
  | [], [] => 0
  | [], _ :: _ => -1
  | _ :: _, [] => 1
  | a :: as, b :: bs =>
    if a.toNat < b.toNat then -1 else if b.toNat < a.toNat then 1
    else localeCompare as bs

/-- The fixed bucket priority list of `sortTotals`. -/
def totalsOrder : List Str :=
  ["performance max".toList, "display".toList, "demand gen".toList,
   "account".toList, "filtered search terms".toList, "search".toList]

/-- `Array.prototype.indexOf`. -/
def jsIndexOfAux (x : Str) : List Str → Nat → Int
  | [], _ => -1
  | y :: ys, i => if y = x then (i : Int) else jsIndexOfAux x ys (i + 1)

def jsIndexOf (x : Str) (l : List Str) : Int := jsIndexOfAux x l 0

inductive RowType where
  | data
  | meta
  | total
deriving DecidableEq, Repr

structure Row where
  rowId : Sum Str Nat
  rowType : RowType
  cells : Obj
  searchTerm : Str
  campaign : Str
  adGroup : Str
deriving DecidableEq, Repr

/-- `String(row?.[searchTermCol] ?? row?.searchTerm ?? "")` in `sortTotals`. -/
def totalRowLabel (searchTermCol : Str) (r : Row) : Str :=
  (objGet r.cells searchTermCol).getD r.searchTerm

/-- `rank` of `sortTotals`: priority-list index of the row's bucket,
`999` for unknown buckets. -/
def totalRank (searchTermCol : Str) (r : Row) : Nat :=
  let bucket := totalBucket (totalRowLabel searchTermCol r)
  let idx := jsIndexOf bucket totalsOrder
  (if idx = -1 then 999 else idx).toNat

/-- The comparator passed to `.sort` in `sortTotals`. -/
def cmpTotalRows (searchTermCol : Str) (a b : Row) : Int :=
  if ¬ totalRank searchTermCol a = totalRank searchTermCol b then
    (totalRank searchTermCol a : Int) - (totalRank searchTermCol b : Int)
  else
    localeCompare (totalBucket (totalRowLabel searchTermCol a))
      (totalBucket (totalRowLabel searchTermCol b))

/-- The non-strict order induced by the `sortTotals` comparator. -/
def totalsLE (searchTermCol : Str) (a b : Row) : Prop :=
  cmpTotalRows searchTermCol a b ≤ 0

instance (searchTermCol : Str) : DecidableRel (totalsLE searchTermCol) :=
  fun a b => inferInstanceAs (Decidable (cmpTotalRows searchTermCol a b ≤ 0))

/-- `sortTotals` of `parseSearchTermsCsv.js`; `Array.prototype.sort` is
stable (ECMAScript 2019+), modelled by the stable `List.insertionSort`. -/
def sortTotals (totalRows : List Row) (searchTermCol : Str) : List Row :=
  List.insertionSort (totalsLE searchTermCol) totalRows

/-! ## Date-range extraction (`parseSearchTermsCsv.js`) -/

/-- The regex class `[A-Za-zА-Яа-я]` (month words). -/
def dateLetter (c : Char) : Bool :=
  ('A' ≤ c ∧ c ≤ 'Z') ∨ ('a' ≤ c ∧ c ≤ 'z') ∨
  ('А' ≤ c ∧ c ≤ 'Я') ∨ ('а' ≤ c ∧ c ≤ 'я')

/-- The regex class `[-–—]` (hyphen, en dash, em dash). -/
def dashChar (c : Char) : Bool := c = '-' ∨ c = '–' ∨ c = '—'

/-- After the leading day digits: match `\s+[A-Za-zА-Яа-я]+\s+\d{4}` and
return the rest of the string. -/
def oneDateTail (s : Str) : Option Str :=
  let ws1 := s.takeWhile jsWhitespace
  if ws1.isEmpty then none
  else
    let r1 := s.drop ws1.length
    let letters := r1.takeWhile dateLetter
    if letters.isEmpty then none
    else
      let r2 := r1.drop letters.length
      let ws2 := r2.takeWhile jsWhitespace
      if ws2.isEmpty then none
      else
        let r3 := r2.drop ws2.length
        if decide (4 ≤ r3.length) ∧ (r3.take 4).all Char.isDigit then some (r3.drop 4)
        else none

/-- Match `\d{d}\s+[A-Za-zА-Яа-я]+\s+\d{4}` (exactly `d` day digits). -/
def oneDateD (d : Nat) (s : Str) : Option Str :=
  if (s.take d).length = d ∧ (s.take d).all Char.isDigit then oneDateTail (s.drop d)
  else none

/-- The full date-range regex body matched at the start of `s`, with the
day-digit quantifiers `\d{1,2}` backtracked greedily (2 then 1 digits). -/
def dateRangeFromD (d : Nat) (s : Str) : Bool :=
  match oneDateD d s with
  | none => false
  | some r =>
    match r.dropWhile jsWhitespace with
    | c :: r2 =>
      dashChar c &&
        (let t := r2.dropWhile jsWhitespace
         (oneDateD 2 t).isSome || (oneDateD 1 t).isSome)
    | [] => false

def dateRangeAt (s : Str) : Bool := dateRangeFromD 2 s || dateRangeFromD 1 s

/-- `dateRangeRegex.test(l)`: the pattern matches at some offset. -/
def testDateRange : Str → Bool
  | [] => dateRangeAt []
  | c :: rest => dateRangeAt (c :: rest) || testDateRange rest

/-- `/\d{4}/.test(l)`: four consecutive digits somewhere. -/
def testFourDigits : Str → Bool
  | [] => false
  | c :: rest =>
    (decide (4 ≤ (c :: rest).length) ∧ ((c :: rest).take 4).all Char.isDigit) ||
      testFourDigits rest

/-- `extractDateRange` of `parseSearchTermsCsv.js`. -/
def extractDateRange (lines : List Str) : Option Str :=
  let candidates := (lines.map jsTrim).filter (fun l => ¬ l.isEmpty)
  match candidates.find? testDateRange with
  | some hit => some hit
  | none =>
    candidates.find? (fun l => testFourDigits l && l.any (fun c => dashChar c))

/-! ## The report assembler (`parseSearchTermsCsv.js`)

The PapaParse decode is abstracted: the assembler takes the decoded grid
(the `scanRows` the JS code computes with `header: false`) together with the
decode warnings.  Simple mode re-reads the same grid with the first row as
the field list, which is what `Papa.parse` with `header: true` produces on
the same text. -/

structure Report where
  columns : List Str
  rows : List Row
  searchTermColumnName : Str
  campaignColumnName : Option Str
  adGroupColumnName : Option Str
  warnings : List Str
  preambleLines : List Str
  dateRange : Option Str
deriving DecidableEq, Repr

/-- Build one data/total row (`rawRows.forEach` body; also the row mapper of
`parseSimpleHeaderCsv`). -/
def mkDataRow (searchTermCol : Str) (campaignCol adGroupCol : Option Str)
    (idx : Nat) (r : Obj) : Row :=
  let term := (objGet r searchTermCol).getD []
  { rowId := Sum.inr (idx + 1)
    rowType := if isTotalLabel term then RowType.total else RowType.data
    cells := r
    searchTerm := term
    campaign := match campaignCol with | some c => (objGet r c).getD [] | none => []
    adGroup := match adGroupCol with | some c => (objGet r c).getD [] | none => [] }

/-- The `forEach`/`map` traversal with its running row index. -/
def mapWithIndex (f : Nat → Obj → Row) : Nat → List Obj → List Row
  | _, [] => []
  | i, r :: rest => f i r :: mapWithIndex f (i + 1) rest

/-- The header fields of the `header: true` decode of `parseSimpleHeaderCsv`
(`transformHeader` strips a BOM and trims). -/
def simpleRawCols (grid : List (List Str)) : List Str :=
  (grid.headD []).map (fun h => jsTrim (stripBom h))

/-- `parseSimpleHeaderCsv` of `parseSearchTermsCsv.js` (fallback when no
header row is detected): the first grid row is the header. -/
def parseSimpleHeaderCsv (grid : List (List Str)) (warnings : List Str) : Report :=
  let rawCols := simpleRawCols grid
  let rawRows := grid.tail.map (fun cells => mapRowToObject rawCols cells)
  let searchTermCol := detectSearchTermColumn rawCols
  let campaignCol := detectCampaignColumn rawCols
  let adGroupCol := detectAdGroupColumn rawCols
  let rows := mapWithIndex (fun i r => mkDataRow searchTermCol campaignCol adGroupCol i r) 0 rawRows
  { columns :=
      if rawCols.isEmpty then
        [if searchTermCol.isEmpty then "Search term".toList else searchTermCol]
      else rawCols
    rows := rows
    searchTermColumnName := searchTermCol
    campaignColumnName := campaignCol
    adGroupColumnName := adGroupCol
    warnings := warnings
    preambleLines := []
    dateRange := none }

/-! The header-detected branch of `parseSearchTermsCsv`, with its pure
subcomputations named (`hm` = header mode); `i` is the detected header row
index. -/

def hmPreamble (grid : List (List Str)) (i : Nat) : List Str :=
  ((grid.take i).map joinRowCells).filter (fun l => ¬ l.isEmpty)

def hmColumns (grid : List (List Str)) (i : Nat) : List Str :=
  normalizeColumns (grid.getD i [])

def hmStc (grid : List (List Str)) (i : Nat) : Str :=
  detectSearchTermColumn (hmColumns grid i)

def hmDateRange (grid : List (List Str)) (i : Nat) : Option Str :=
  extractDateRange (hmPreamble grid i)

/-- The synthetic meta row (present only when a date range was extracted
from the preamble). -/
def hmMetaRows (grid : List (List Str)) (i : Nat) : List Row :=
  match hmDateRange grid i with
  | some dr =>
    let searchTermCol := hmStc grid i
    let key := if searchTermCol.isEmpty then (hmColumns grid i).headD [] else searchTermCol
    [{ rowId := Sum.inl "meta-date-range".toList
       rowType := RowType.meta
       cells := objSet key dr (emptyObjectForColumns (hmColumns grid i))
       searchTerm := dr
       campaign := []
       adGroup := [] }]
  | none => []

/-- All table rows below the header, built by the `forEach` body (each is
tagged `total` or `data` by its term's total label). -/
def hmProcessed (grid : List (List Str)) (i : Nat) : List Row :=
  mapWithIndex
    (fun idx r =>
      mkDataRow (hmStc grid i) (detectCampaignColumn (hmColumns grid i))
        (detectAdGroupColumn (hmColumns grid i)) idx r)
    0
    ((grid.drop (i + 1)).map (fun cells => mapRowToObject (hmColumns grid i) cells))

/-- The header-detected branch of `parseSearchTermsCsv`: the `forEach` over
the raw rows pushes each built row into `dataRows` or `totalRows` by its
total label — a stable partition by row type — and the assembled `rows` is
`metaRows ++ dataRows ++ orderedTotals`. -/
def parseHeaderMode (warnings : List Str) (grid : List (List Str)) (i : Nat) : Report :=
  { columns := hmColumns grid i
    rows :=
      hmMetaRows grid i ++
        (hmProcessed grid i).filter (fun r => r.rowType = RowType.data) ++
          sortTotals ((hmProcessed grid i).filter (fun r => r.rowType = RowType.total))
            (hmStc grid i)
    searchTermColumnName := hmStc grid i
    campaignColumnName := detectCampaignColumn (hmColumns grid i)
    adGroupColumnName := detectAdGroupColumn (hmColumns grid i)
    warnings := warnings
    preambleLines := hmPreamble grid i
    dateRange := hmDateRange grid i }

/-- `parseSearchTermsCsv` of `parseSearchTermsCsv.js`, as a function of the
decoded grid and the decode warnings. -/
def parseSearchTermsCsvGrid (warnings : List Str) (grid : List (List Str)) : Report :=
  let headerRowIndex := findHeaderRowIndex grid
  if headerRowIndex = -1 then parseSimpleHeaderCsv grid warnings
  else parseHeaderMode warnings grid headerRowIndex.toNat

/-! ## `formatNegative.js` -/

/-- `formatNegative` of `formatNegative.js`; `none` models a
`null`/`undefined` argument. -/
def formatNegative (text : Option Str) (matchType : Option Str) : Str :=
  let t := jsTrim (text.getD [])
  if t.isEmpty then []
  else if matchType = some "exact".toList then '[' :: t ++ [']']
  else if matchType = some "phrase".toList then '"' :: t ++ ['"']
  else t

/-! ## The negative-keyword reducer (`App.jsx`, src/unnamed/part_000) -/

/-- JS `x || dflt` for an optional string `x`. -/
def orDefault (o : Option Str) (dflt : Str) : Str :=
  match o with
  | some s => if s.isEmpty then dflt else s
  | none => dflt

def UNKNOWN_CAMPAIGN : Str := "Unknown campaign".toList

/-- `normKey` of `App.jsx`. -/
def normKey (s : Str) : Str := jsToLower (jsTrim s)

/-- `normCampaignName` of `App.jsx`; `none` models `null`/`undefined`. -/
def normCampaignName (s : Option Str) : Str :=
  let c := jsTrim (s.getD [])
  if c.isEmpty then UNKNOWN_CAMPAIGN else c

structure NegItem where
  id : Str
  text : Str
  matchType : Str
deriving DecidableEq, Repr

structure ReportState where
  columns : List Str
  rows : List Row
  filename : Option Str
  searchTermColumnName : Option Str
  campaignColumnName : Option Str
  adGroupColumnName : Option Str
  warnings : List Str
  error : Option Str
deriving DecidableEq, Repr

structure NegState where
  items : List NegItem
  byCampaign : List (Str × List NegItem)
deriving DecidableEq, Repr

structure UIState where
  markedRowIds : List (Sum Str Nat)
  mode : Str
  selectedCampaign : Str
deriving DecidableEq, Repr

structure AppState where
  report : ReportState
  negatives : NegState
  ui : UIState
deriving DecidableEq, Repr

def initialState : AppState :=
  { report :=
      { columns := [], rows := [], filename := none,
        searchTermColumnName := none, campaignColumnName := none,
        adGroupColumnName := none, warnings := [], error := none }
    negatives := { items := [], byCampaign := [] }
    ui := { markedRowIds := [], mode := "account".toList, selectedCampaign := [] } }

/-- `Set.prototype.add`. -/
def setAdd (l : List (Sum Str Nat)) (x : Sum Str Nat) : List (Sum Str Nat) :=
  if l.contains x then l else l ++ [x]

/-- `Set.prototype.delete`. -/
def setDelete (l : List (Sum Str Nat)) (x : Sum Str Nat) : List (Sum Str Nat) :=
  l.filter (fun y => ¬ y = x)

/-- The comparator order of `arr.sort((a, b) => a.localeCompare(b))`. -/
def campaignsLE (a b : Str) : Prop := localeCompare a b ≤ 0

instance : DecidableRel campaignsLE :=
  fun a b => inferInstanceAs (Decidable (localeCompare a b ≤ 0))

/-- `extractCampaigns` of `App.jsx`. -/
def extractCampaigns (rows : List Row) : List Str :=
  let arr := rows.foldl
    (fun acc r =>
      if ¬ r.rowType = RowType.data then acc
      else
        let raw := jsTrim r.campaign
        if raw.isEmpty then acc
        else if raw ∈ acc then acc else acc ++ [raw])
    []
  let sorted := List.insertionSort campaignsLE arr
  if sorted.isEmpty then [UNKNOWN_CAMPAIGN] else sorted

structure ReportPayload where
  columns : List Str
  rows : List Row
  filename : Option Str
  searchTermColumnName : Option Str
  campaignColumnName : Option Str
  adGroupColumnName : Option Str
  warnings : List Str
deriving DecidableEq, Repr

inductive Action where
  | reportLoaded (payload : ReportPayload)
  | reportError (filename : Option Str) (error : Option Str)
  | setMode (mode : Str)
  | setSelectedCampaign (campaign : Str)
  | addNegative (text : Option Str) (matchType : Option Str) (scope : Option Str)
      (campaign : Option Str) (markRow : Bool) (rowId : Option (Sum Str Nat))
      (freshId : Str)
  | removeNegativeByText (text : Option Str) (scope : Option Str)
      (campaign : Option Str) (unmarkRow : Bool) (rowId : Option (Sum Str Nat))
  | removeNegative (id : Str) (scope : Option Str) (campaign : Option Str)
  | updateNegativeMatchType (id : Str) (matchType : Str) (scope : Option Str)
      (campaign : Option Str)
deriving DecidableEq

/-- `existsInList` of the `ADD_NEGATIVE` case. -/
def existsInList (text : Str) (list : List NegItem) : Bool :=
  list.any (fun x => normKey x.text = normKey text)

/-- The `reducer` of `App.jsx`; `crypto.randomUUID()` is modelled by the
`freshId` action field. -/
def reducer (state : AppState) (action : Action) : AppState :=
  match action with
  | .reportLoaded payload =>
    let campaigns := extractCampaigns payload.rows
    { state with
      report :=
        { columns := payload.columns, rows := payload.rows,
          filename := payload.filename,
          searchTermColumnName := payload.searchTermColumnName,
          campaignColumnName := payload.campaignColumnName,
          adGroupColumnName := payload.adGroupColumnName,
          warnings := payload.warnings, error := none }
      ui :=
        { state.ui with
          markedRowIds := []
          selectedCampaign :=
            if state.ui.mode = "campaign".toList then
              orDefault (some (campaigns.headD [])) UNKNOWN_CAMPAIGN
            else [] }
      negatives := { items := [], byCampaign := [] } }
  | .reportError filename error =>
    { state with
      report :=
        { columns := [], rows := [], filename := filename,
          searchTermColumnName := none, campaignColumnName := none,
          adGroupColumnName := none, warnings := [],
          error := some (orDefault error "Failed to load report".toList) }
      ui := { state.ui with markedRowIds := [], selectedCampaign := [] }
      negatives := { items := [], byCampaign := [] } }
  | .setMode mode =>
    if ¬ mode = "account".toList ∧ ¬ mode = "campaign".toList then state
    else
      let selectedCampaign :=
        if mode = "campaign".toList then
          let campaigns := extractCampaigns state.report.rows
          if ¬ state.ui.selectedCampaign ∈ campaigns then
            orDefault (some (campaigns.headD [])) UNKNOWN_CAMPAIGN
          else state.ui.selectedCampaign
        else state.ui.selectedCampaign
      { state with ui := { state.ui with mode := mode, selectedCampaign := selectedCampaign } }
  | .setSelectedCampaign campaign =>
    { state with ui := { state.ui with selectedCampaign := campaign } }
  | .addNegative textOpt matchTypeOpt scopeOpt campaignOpt markRow rowIdOpt freshId =>
    match textOpt.map jsTrim with
    | none => state
    | some text =>
      if text.isEmpty then state
      else
        let matchType := orDefault matchTypeOpt "phrase".toList
        let scope := orDefault scopeOpt state.ui.mode
        let campaign := normCampaignName campaignOpt
        let nextMarked :=
          match rowIdOpt with
          | some rid => if markRow then setAdd state.ui.markedRowIds rid else state.ui.markedRowIds
          | none => state.ui.markedRowIds
        if scope = "campaign".toList then
          let current := (objGet state.negatives.byCampaign campaign).getD []
          if existsInList text current then
            { state with ui := { state.ui with markedRowIds := nextMarked } }
          else
            let next := current ++ [{ id := freshId, text := text, matchType := matchType }]
            { state with
              negatives :=
                { state.negatives with
                  byCampaign := objSet campaign next state.negatives.byCampaign }
              ui := { state.ui with markedRowIds := nextMarked } }
        else
          if existsInList text state.negatives.items then
            { state with ui := { state.ui with markedRowIds := nextMarked } }
          else
            let nextItems :=
              state.negatives.items ++ [{ id := freshId, text := text, matchType := matchType }]
            { state with
              negatives := { state.negatives with items := nextItems }
              ui := { state.ui with markedRowIds := nextMarked } }
  | .removeNegativeByText textOpt scopeOpt campaignOpt unmarkRow rowIdOpt =>
    let text := jsToLower (jsTrim (textOpt.getD []))
    if text.isEmpty then state
    else
      let scope := orDefault scopeOpt state.ui.mode
      let campaign := normCampaignName campaignOpt
      let removeFromList (list : List NegItem) : List NegItem :=
        list.filter (fun x => ¬ normKey x.text = normKey text)
      let nextMarked :=
        match rowIdOpt with
        | some rid =>
          if unmarkRow then setDelete state.ui.markedRowIds rid else state.ui.markedRowIds
        | none => state.ui.markedRowIds
      if scope = "campaign".toList then
        let current := (objGet state.negatives.byCampaign campaign).getD []
        let next := removeFromList current
        { state with
          negatives :=
            { state.negatives with
              byCampaign := objSet campaign next state.negatives.byCampaign }
          ui := { state.ui with markedRowIds := nextMarked } }
      else
        { state with
          negatives := { state.negatives with items := removeFromList state.negatives.items }
          ui := { state.ui with markedRowIds := nextMarked } }
  | .removeNegative id scopeOpt campaignOpt =>
    let scope := orDefault scopeOpt state.ui.mode
    let campaign := normCampaignName campaignOpt
    let removedItemsByC :=
      if scope = "campaign".toList then
        let current := (objGet state.negatives.byCampaign campaign).getD []
        let removed := current.find? (fun x => x.id = id)
        let next := current.filter (fun x => ¬ x.id = id)
        (removed, state.negatives.items, objSet campaign next state.negatives.byCampaign)
      else
        (state.negatives.items.find? (fun x => x.id = id),
          state.negatives.items.filter (fun x => ¬ x.id = id),
          state.negatives.byCampaign)
    let nextMarked :=
      match removedItemsByC.1 with
      | none => state.ui.markedRowIds
      | some removed =>
        state.report.rows.foldl
          (fun acc r =>
            let sameText := normKey r.searchTerm = normKey removed.text
            let sameCampaign :=
              ¬ scope = "campaign".toList ∨ normCampaignName (some r.campaign) = campaign
            if sameText ∧ sameCampaign then setDelete acc r.rowId else acc)
          state.ui.markedRowIds
    { state with
      negatives :=
        { items := removedItemsByC.2.1, byCampaign := removedItemsByC.2.2 }
      ui := { state.ui with markedRowIds := nextMarked } }
  | .updateNegativeMatchType id matchType scopeOpt campaignOpt =>
    let scope := orDefault scopeOpt state.ui.mode
    let campaign := normCampaignName campaignOpt
    if scope = "campaign".toList then
      let current := (objGet state.negatives.byCampaign campaign).getD []
      let next := current.map (fun x => if x.id = id then { x with matchType := matchType } else x)
      { state with
        negatives :=
          { state.negatives with
            byCampaign := objSet campaign next state.negatives.byCampaign } }
    else
      let nextItems :=
        state.negatives.items.map
          (fun x => if x.id = id then { x with matchType := matchType } else x)
      { state with negatives := { state.negatives with items := nextItems } }

/-- The state reached from `initialState` by a sequence of dispatched
actions. -/
def runActions (actions : List Action) : AppState :=
  actions.foldl reducer initialState

/-! # Lemmas about `pickBestColumn` -/

theorem pickBestAux_eq_some (f : Str → Nat) :
    ∀ (l : List Str) (best : Option Str) (bs : Nat) (c : Str),
      pickBestAux f l best bs = some c →
      (best = some c ∧ ∀ d ∈ l, f (norm d) ≤ bs) ∨
        (c ∈ l ∧ bs < f (norm c) ∧ ∀ d ∈ l, f (norm d) ≤ f (norm c)) := by
  intro l
  induction l with
  | nil =>
    intro best bs c h
    exact Or.inl ⟨h, by simp⟩
  | cons x xs ih =>
    intro best bs c h
    rw [pickBestAux] at h
    by_cases hx : bs < f (norm x)
    · rw [if_pos hx] at h
      rcases ih (some x) (f (norm x)) c h with ⟨hb, hall⟩ | ⟨hmem, hlt, hall⟩
      · refine Or.inr ⟨?_, ?_, ?_⟩
        · rw [Option.some_inj] at hb; rw [← hb]; exact List.mem_cons_self x xs
        · rw [Option.some_inj] at hb; rw [← hb]; exact hx
        · rw [Option.some_inj] at hb
          intro d hd
          rcases List.mem_cons.mp hd with hdx | hdxs
          · rw [hdx, hb]
          · rw [← hb]; exact hall d hdxs
      · refine Or.inr ⟨List.mem_cons_of_mem x hmem, lt_trans hx hlt, ?_⟩
        intro d hd
        rcases List.mem_cons.mp hd with hdx | hdxs
        · rw [hdx]; exact le_of_lt hlt
        · exact hall d hdxs
    · rw [if_neg hx] at h
      rcases ih best bs c h with ⟨hb, hall⟩ | ⟨hmem, hlt, hall⟩
      · refine Or.inl ⟨hb, ?_⟩
        intro d hd
        rcases List.mem_cons.mp hd with hdx | hdxs
        · rw [hdx]; exact Nat.le_of_not_lt hx
        · exact hall d hdxs
      · refine Or.inr ⟨List.mem_cons_of_mem x hmem, hlt, ?_⟩
        intro d hd
        rcases List.mem_cons.mp hd with hdx | hdxs
        · rw [hdx]; exact le_trans (Nat.le_of_not_lt hx) (le_of_lt hlt)
        · exact hall d hdxs

theorem pickBestColumn_spec {f : Str → Nat} {l : List Str} {c : Str}
    (h : pickBestColumn l f = some c) :
    c ∈ l ∧ 0 < f (norm c) ∧ ∀ d ∈ l, f (norm d) ≤ f (norm c) := by
  rcases pickBestAux_eq_some f l none 0 c h with ⟨hb, _⟩ | ⟨hmem, hlt, hall⟩
  · exact absurd hb (by simp)
  · exact ⟨hmem, hlt, hall⟩

theorem pickBestAux_eq_none (f : Str → Nat) :
    ∀ (l : List Str) (best : Option Str) (bs : Nat),
      pickBestAux f l best bs = none →
      best = none ∧ ∀ d ∈ l, f (norm d) ≤ bs := by
  intro l
  induction l with
  | nil =>
    intro best bs h
    exact ⟨h, by simp⟩
  | cons x xs ih =>
    intro best bs h
    rw [pickBestAux] at h
    by_cases hx : bs < f (norm x)
    · rw [if_pos hx] at h
      rcases ih (some x) (f (norm x)) h with ⟨hb, _⟩
      exact absurd hb (by simp)
    · rw [if_neg hx] at h
      rcases ih best bs h with ⟨hb, hall⟩
      refine ⟨hb, ?_⟩
      intro d hd
      rcases List.mem_cons.mp hd with hdx | hdxs
      · rw [hdx]; exact Nat.le_of_not_lt hx
      · exact hall d hdxs

theorem pickBestColumn_eq_none {f : Str → Nat} {l : List Str}
    (h : pickBestColumn l f = none) : ∀ d ∈ l, f (norm d) = 0 := by
  intro d hd
  exact Nat.le_zero.mp ((pickBestAux_eq_none f l none 0 h).2 d hd)

/-- Uniqueness of the positive-score maximum up to label content: any two
columns of `l` that both attain the maximal positive score of `f` are the
same string. -/
def maxUnique (f : Str → Nat) (l : List Str) : Prop :=
  ∀ c ∈ l, ∀ d ∈ l, 0 < f (norm c) → 0 < f (norm d) →
    (∀ e ∈ l, f (norm e) ≤ f (norm c)) → (∀ e ∈ l, f (norm e) ≤ f (norm d)) →
    c = d

instance (f : Str → Nat) (l : List Str) : Decidable (maxUnique f l) := by
  unfold maxUnique
  infer_instance

theorem pickBestColumn_perm {f : Str → Nat} {l l' : List Str}
    (hp : l.Perm l') (hu : maxUnique f l) :
    pickBestColumn l f = pickBestColumn l' f := by
  cases h1 : pickBestColumn l f with
  | none =>
    cases h2 : pickBestColumn l' f with
    | none => rfl
    | some c =>
      rcases pickBestColumn_spec h2 with ⟨hmem, hpos, _⟩
      have := pickBestColumn_eq_none h1 c (hp.mem_iff.mpr hmem)
      omega
  | some c =>
    cases h2 : pickBestColumn l' f with
    | none =>
      rcases pickBestColumn_spec h1 with ⟨hmem, hpos, _⟩
      have := pickBestColumn_eq_none h2 c (hp.mem_iff.mp hmem)
      omega
    | some c' =>
      rcases pickBestColumn_spec h1 with ⟨hmem, hpos, hall⟩
      rcases pickBestColumn_spec h2 with ⟨hmem', hpos', hall'⟩
      have hmem'l : c' ∈ l := hp.mem_iff.mpr hmem'
      have hall'l : ∀ e ∈ l, f (norm e) ≤ f (norm c') := by
        intro e he
        exact hall' e (hp.mem_iff.mp he)
      rw [hu c hmem c' hmem'l hpos hpos' hall hall'l]

/-! # C1: the cost column is never a cost-per-conversion column -/

theorem costScore_of_costPerConvKey {k : Str} (h : isCostPerConvKey k = true) :
    costScore k = 0 := by
  rw [costScore, if_pos h]

theorem costPerConvScore_pos {k : Str} (h : 0 < costPerConvScore k) :
    isCostPerConvKey k = true := by
  by_cases hk : isCostPerConvKey k = true
  · exact hk
  · rw [costPerConvScore, if_neg hk] at h
    omega

/-- **C1.** For every list of column labels, the column that
`detectMetricColumnsStrong` assigns to the cost role never has a normalized
label satisfying `isCostPerConvKey` (the cost scorer returns 0 on such
labels), and hence the cost result never equals the cost-per-conversion
result. -/
theorem C1_cost_never_costPerConv (cols : List Str) (c : Str)
    (h : (detectMetricColumnsStrong cols).cost = some c) :
    isCostPerConvKey (norm c) = false ∧
      (detectMetricColumnsStrong cols).costPerConv ≠ some c := by
  rw [detectMetricColumnsStrong] at h ⊢
  rcases pickBestColumn_spec h with ⟨_, hpos, _⟩
  have hkey : isCostPerConvKey (norm c) = false := by
    by_cases hk : isCostPerConvKey (norm c) = true
    · rw [costScore_of_costPerConvKey hk] at hpos; omega
    · exact Bool.not_eq_true _ |>.mp hk
  refine ⟨hkey, ?_⟩
  intro hcpc
  rcases pickBestColumn_spec hcpc with ⟨_, hpos', _⟩
  rw [costPerConvScore_pos hpos'] at hkey
  exact Bool.true_eq_false.mp hkey

/-- Witness for C1 at a concrete column list. -/
theorem C1_witness :
    isCostPerConvKey (norm "Cost".toList) = false ∧
      (detectMetricColumnsStrong
        ["Cost / conv.".toList, "Cost".toList]).costPerConv ≠
        some "Cost".toList :=
  C1_cost_never_costPerConv ["Cost / conv.".toList, "Cost".toList]
    "Cost".toList (by decide)

/-! # C2: order independence of `detectMetricColumnsStrong` -/

/-- **C2 (counterexample).** `detectMetricColumnsStrong` is *not*
column-order-independent: `["clicks", "click"]` and its permutation
`["click", "clicks"]` both score 110 for the clicks role, and the
first-seen column wins, so the clicks role changes content under the
permutation. -/
theorem C2_counterexample :
    (["clicks".toList, "click".toList] : List Str).Perm
        ["click".toList, "clicks".toList] ∧
      (detectMetricColumnsStrong ["clicks".toList, "click".toList]).clicks =
        some "clicks".toList ∧
      (detectMetricColumnsStrong ["click".toList, "clicks".toList]).clicks =
        some "click".toList ∧
      ¬ detectMetricColumnsStrong ["clicks".toList, "click".toList] =
          detectMetricColumnsStrong ["click".toList, "clicks".toList] := by
  refine ⟨List.Perm.swap _ _ _, by decide, by decide, by decide⟩

/-- **C2 (amended).** `detectMetricColumnsStrong` is column-order
independent for every permutation, provided that for each of the five
role scorers any two columns attaining the maximal positive score have the
same content (no cross-label ties at the top, as in the counterexample
`["clicks", "click"]`). -/
theorem C2_detectMetricColumnsStrong_perm (l l' : List Str) (hp : l.Perm l')
    (hcost : maxUnique costScore l) (himpr : maxUnique imprScore l)
    (hclicks : maxUnique clicksScore l) (hconv : maxUnique convScore l)
    (hcpc : maxUnique costPerConvScore l) :
    detectMetricColumnsStrong l = detectMetricColumnsStrong l' := by
  rw [detectMetricColumnsStrong, detectMetricColumnsStrong,
    pickBestColumn_perm hp hcost, pickBestColumn_perm hp himpr,
    pickBestColumn_perm hp hclicks, pickBestColumn_perm hp hconv,
    pickBestColumn_perm hp hcpc]

/-- Witness for the amended C2 at a concrete column list and permutation. -/
theorem C2_witness :
    detectMetricColumnsStrong ["Cost".toList, "Clicks".toList] =
      detectMetricColumnsStrong ["Clicks".toList, "Cost".toList] :=
  C2_detectMetricColumnsStrong_perm _ _ (List.Perm.swap _ _ _)
    (by decide) (by decide) (by decide) (by decide) (by decide)

/-! # C4: MISSING sorts last in the `visibleRows` comparator -/

/-- **C4.** In the metric-sort comparator of `visibleRows`, a row whose
metric value parses to MISSING compares as `1` against (i.e. is placed
after) every row with a finite metric value and as `-1` in the mirrored
call, for every sort direction (the direction multiplier is never
applied); two MISSING rows compare equal. -/
theorem C4_missing_sorts_last (sortDir : Str) (a b : Option Str)
    (ha : parseMetricNumber a = none) :
    (parseMetricNumber b ≠ none →
      visibleRowsCompare sortDir a b = 1 ∧ visibleRowsCompare sortDir b a = -1) ∧
      (parseMetricNumber b = none → visibleRowsCompare sortDir a b = 0) := by
  cases hb : parseMetricNumber b with
  | none =>
    refine ⟨fun hc => absurd rfl hc, fun _ => ?_⟩
    simp only [visibleRowsCompare, ha, hb]
  | some q =>
    refine ⟨fun _ => ⟨?_, ?_⟩, fun hc => absurd hc (by simp)⟩
    · simp only [visibleRowsCompare, ha, hb]
    · simp only [visibleRowsCompare, ha, hb]

/-- Witness for C4: an em-dash cell sorts after a numeric cell in both
directions. -/
theorem C4_witness :
    (visibleRowsCompare "asc".toList (some "—".toList) (some "5".toList) = 1 ∧
      visibleRowsCompare "asc".toList (some "5".toList) (some "—".toList) = -1) :=
  (C4_missing_sorts_last "asc".toList (some "—".toList) (some "5".toList)
    (by decide)).1 (by decide)

/-! # C9: `formatNegative` -/

/-- **C9.** `formatNegative` returns the empty string exactly when its text
argument trims to empty; otherwise it wraps the trimmed text in square
brackets for match type `"exact"`, in double quotes for `"phrase"`, and
returns the bare trimmed text for every other match type (including
`"broad"`, unrecognized values and an absent match type). -/
theorem C9_formatNegative (text matchType : Option Str) :
    (formatNegative text matchType = [] ↔ jsTrim (text.getD []) = []) ∧
      (¬ jsTrim (text.getD []) = [] →
        (matchType = some "exact".toList →
          formatNegative text matchType = '[' :: jsTrim (text.getD []) ++ [']']) ∧
          (matchType = some "phrase".toList →
            formatNegative text matchType = '"' :: jsTrim (text.getD []) ++ ['"']) ∧
          (¬ matchType = some "exact".toList → ¬ matchType = some "phrase".toList →
            formatNegative text matchType = jsTrim (text.getD []))) := by
  by_cases ht : jsTrim (text.getD []) = []
  · simp [formatNegative, ht]
  · have hne : (jsTrim (text.getD [])).isEmpty = false := by
      cases hc : jsTrim (text.getD []) with
      | nil => exact absurd hc ht
      | cons x xs => rfl
    simp only [formatNegative, hne, Bool.false_eq_true, if_false]
    constructor
    · constructor
      · intro h
        by_cases he : matchType = some "exact".toList
        · rw [if_pos he] at h; exact absurd h (by simp)
        · rw [if_neg he] at h
          by_cases hp : matchType = some "phrase".toList
          · rw [if_pos hp] at h; exact absurd h (by simp)
          · rw [if_neg hp] at h; exact h
      · intro h; exact absurd h ht
    · intro _
      refine ⟨?_, ?_, ?_⟩
      · intro he; rw [if_pos he]
      · intro hp
        by_cases he : matchType = some "exact".toList
        · rw [he] at hp; exact absurd hp (by decide)
        · rw [if_neg he, if_pos hp]
      · intro he hp; rw [if_neg he, if_neg hp]

/-- Witness for C9 at concrete arguments. -/
theorem C9_witness :
    formatNegative (some "  hi there ".toList) (some "exact".toList) =
      '[' :: jsTrim ((some "  hi there ".toList : Option Str).getD []) ++ [']'] :=
  ((C9_formatNegative (some "  hi there ".toList) (some "exact".toList)).2
    (by decide)).1 rfl

/-! # String lemmas for the number-parser rules (C3) -/

theorem lastIndexOfAux_of_not_mem {c : Char} :
    ∀ (s : Str) (i : Nat) (acc : Int), c ∉ s → lastIndexOfAux c s i acc = acc := by
  intro s
  induction s with
  | nil => intro i acc _; rfl
  | cons x xs ih =>
    intro i acc h
    rw [lastIndexOfAux]
    have hx : ¬ x = c := fun he => h (he ▸ List.mem_cons_self x xs)
    rw [if_neg hx]
    exact ih (i + 1) acc (fun hm => h (List.mem_cons_of_mem x hm))

theorem lastIndexOf_of_not_mem {c : Char} {s : Str} (h : c ∉ s) :
    lastIndexOf c s = -1 :=
  lastIndexOfAux_of_not_mem s 0 (-1) h

theorem lastIndexOfAux_append {c : Char} {q : Str} (hq : c ∉ q) :
    ∀ (p : Str) (i : Nat) (acc : Int),
      lastIndexOfAux c (p ++ c :: q) i acc = ((i + p.length : Nat) : Int) := by
  intro p
  induction p with
  | nil =>
    intro i acc
    rw [List.nil_append, lastIndexOfAux, if_pos rfl,
      lastIndexOfAux_of_not_mem q (i + 1) (i : Int) hq]
    simp
  | cons x xs ih =>
    intro i acc
    rw [List.cons_append, lastIndexOfAux]
    by_cases hx : x = c
    · rw [if_pos hx, ih (i + 1)]
      simp
      omega
    · rw [if_neg hx, ih (i + 1)]
      simp
      omega

theorem lastIndexOf_append {c : Char} {p q : Str} (hq : c ∉ q) :
    lastIndexOf c (p ++ c :: q) = ((p.length : Nat) : Int) := by
  rw [lastIndexOf, lastIndexOfAux_append hq p 0 (-1)]
  simp

theorem exists_last_decomp {c : Char} {s : Str} (h : c ∈ s) :
    ∃ p q, s = p ++ c :: q ∧ c ∉ q := by
  induction s with
  | nil => exact absurd h (by simp)
  | cons x xs ih =>
    by_cases hxs : c ∈ xs
    · obtain ⟨p, q, heq, hq⟩ := ih hxs
      exact ⟨x :: p, q, by rw [heq]; rfl, hq⟩
    · have hx : x = c := by
        rcases List.mem_cons.mp h with he | hm
        · exact he.symm
        · exact absurd hm hxs
      exact ⟨[], xs, by rw [hx]; rfl, hxs⟩

theorem decimalRejoin_of_not_mem {sep : Char} {s : Str} (h : sep ∉ s) :
    decimalRejoin sep s = '.' :: s := by
  cases s with
  | nil => rfl
  | cons x xs => rw [decimalRejoin, if_neg h]

theorem filter_ne_of_not_mem {c : Char} {q : Str} (h : c ∉ q) :
    q.filter (fun x => ¬ x = c) = q := by
  induction q with
  | nil => rfl
  | cons x xs ih =>
    have hx : ¬ x = c := fun he => h (he ▸ List.mem_cons_self x xs)
    rw [List.filter_cons, if_pos (by simp [hx]),
      ih (fun hm => h (List.mem_cons_of_mem x hm))]

theorem decimalRejoin_append {sep : Char} {q : Str} (hq : sep ∉ q) :
    ∀ p : Str,
      decimalRejoin sep (p ++ sep :: q) = p.filter (fun x => ¬ x = sep) ++ '.' :: q := by
  intro p
  induction p with
  | nil =>
    rw [List.nil_append, decimalRejoin, if_pos (List.mem_cons_self sep q), if_pos rfl,
      decimalRejoin_of_not_mem hq]
    rfl
  | cons x xs ih =>
    rw [List.cons_append, decimalRejoin,
      if_pos (by right; exact List.mem_append_right xs (List.mem_cons_self sep q))]
    by_cases hx : x = sep
    · rw [if_pos hx, ih, List.filter_cons]
      simp [hx]
    · rw [if_neg hx, ih, List.filter_cons]
      simp [hx]

theorem not_mem_append_cons {c d : Char} {p q : Str} (hne : ¬ c = d)
    (hp : c ∉ p) (hq : c ∉ q) : c ∉ p ++ d :: q := by
  intro hm
  rcases List.mem_append.mp hm with hm | hm
  · exact hp hm
  · rcases List.mem_cons.mp hm with hm | hm
    · exact hne hm
    · exact hq hm

/-- The early-exit guard of `parseMetricNumber` is refuted by a separator
surviving the character strip. -/
theorem stripped_has_sep {v : Str} {c : Char} (hc : c = '.' ∨ c = ',')
    (hm : c ∈ (jsTrim v).filter keptByStrip) :
    ¬((jsTrim v).isEmpty = true ∨ jsTrim v = ['—'] ∨ jsTrim v = ['-']) := by
  intro h
  rcases h with h0 | h0 | h0
  · rw [List.isEmpty_iff] at h0
    rw [h0] at hm
    simp at hm
  · rw [h0] at hm
    rcases hc with hc | hc <;> rw [hc] at hm <;> exact absurd hm (by decide)
  · rw [h0] at hm
    rcases hc with hc | hc <;> rw [hc] at hm <;> exact absurd hm (by decide)

/-! # The separator rules of `parseMetricNumber` (C3) -/

/-- Both separators, last `'.'` after last `','`: the dot is the decimal
separator and every comma is removed. -/
theorem pmn_both_dot {v p q : Str}
    (hs : (jsTrim v).filter keptByStrip = p ++ '.' :: q)
    (hdq : '.' ∉ q) (hcq : ',' ∉ q) (hcp : ',' ∈ p) :
    parseMetricNumber (some v) =
      parseFloatQ ((p ++ '.' :: q).filter (fun c => ¬ c = ',')) := by
  have hdm : '.' ∈ (jsTrim v).filter keptByStrip := by
    rw [hs]; exact List.mem_append_right p (List.mem_cons_self _ _)
  have hne := stripped_has_sep (Or.inl rfl) hdm
  obtain ⟨p1, p2, hp, hp2⟩ := exists_last_decomp hcp
  have hcq2 : ',' ∉ p2 ++ '.' :: q := not_mem_append_cons (by decide) hp2 hcq
  have hld : lastIndexOf '.' (p ++ '.' :: q) = (p.length : Int) :=
    lastIndexOf_append hdq
  have hlc : lastIndexOf ',' (p ++ '.' :: q) = (p1.length : Int) := by
    rw [hp, List.append_assoc, List.cons_append]
    exact lastIndexOf_append hcq2
  have hplen : p1.length < p.length := by
    rw [hp]
    simp [List.length_append]
  simp only [parseMetricNumber]
  rw [if_neg hne, hs, hld, hlc, if_pos (And.intro (by omega) (by omega)),
    if_pos (by omega)]
  rfl

/-- Both separators, last `','` after last `'.'`: the comma is the decimal
separator, every dot is removed and the first comma is rewritten to a
dot. -/
theorem pmn_both_comma {v p q : Str}
    (hs : (jsTrim v).filter keptByStrip = p ++ ',' :: q)
    (hcq : ',' ∉ q) (hdq : '.' ∉ q) (hdp : '.' ∈ p) :
    parseMetricNumber (some v) =
      parseFloatQ (replaceFirst ',' '.'
        ((p ++ ',' :: q).filter (fun c => ¬ c = '.'))) := by
  have hcm : ',' ∈ (jsTrim v).filter keptByStrip := by
    rw [hs]; exact List.mem_append_right p (List.mem_cons_self _ _)
  have hne := stripped_has_sep (Or.inr rfl) hcm
  obtain ⟨p1, p2, hp, hp2⟩ := exists_last_decomp hdp
  have hdq2 : '.' ∉ p2 ++ ',' :: q := not_mem_append_cons (by decide) hp2 hdq
  have hlc : lastIndexOf ',' (p ++ ',' :: q) = (p.length : Int) :=
    lastIndexOf_append hcq
  have hld : lastIndexOf '.' (p ++ ',' :: q) = (p1.length : Int) := by
    rw [hp, List.append_assoc, List.cons_append]
    exact lastIndexOf_append hdq2
  have hplen : p1.length < p.length := by
    rw [hp]
    simp [List.length_append]
  simp only [parseMetricNumber]
  rw [if_neg hne, hs, hld, hlc, if_pos (And.intro (by omega) (by omega)),
    if_neg (by omega)]
  rfl

/-- Only commas, 1–2 characters after the last comma: that comma is the
decimal separator, the earlier ones are removed. -/
theorem pmn_comma_decimal {v p q : Str}
    (hs : (jsTrim v).filter keptByStrip = p ++ ',' :: q)
    (hcq : ',' ∉ q) (hdp : '.' ∉ p) (hdq : '.' ∉ q)
    (hl1 : 1 ≤ q.length) (hl2 : q.length ≤ 2) :
    parseMetricNumber (some v) =
      parseFloatQ (p.filter (fun c => ¬ c = ',') ++ '.' :: q) := by
  have hcm : ',' ∈ (jsTrim v).filter keptByStrip := by
    rw [hs]; exact List.mem_append_right p (List.mem_cons_self _ _)
  have hne := stripped_has_sep (Or.inr rfl) hcm
  have hld : lastIndexOf '.' (p ++ ',' :: q) = -1 :=
    lastIndexOf_of_not_mem (not_mem_append_cons (by decide) hdp hdq)
  have hlc : lastIndexOf ',' (p ++ ',' :: q) = (p.length : Int) :=
    lastIndexOf_append hcq
  have hL : (p ++ ',' :: q).length = p.length + 1 + q.length := by
    simp [List.length_append]
    omega
  simp only [parseMetricNumber]
  rw [if_neg hne, hs, hld, hlc, if_neg (by omega), if_pos (by omega), hL,
    if_pos (by push_cast; omega), decimalRejoin_append hcq]
  rfl

/-- Only commas, more than 2 (or zero) characters after the last comma:
every comma is removed as a thousands separator. -/
theorem pmn_comma_thousands {v p q : Str}
    (hs : (jsTrim v).filter keptByStrip = p ++ ',' :: q)
    (hcq : ',' ∉ q) (hdp : '.' ∉ p) (hdq : '.' ∉ q)
    (hlen : ¬(1 ≤ q.length ∧ q.length ≤ 2)) :
    parseMetricNumber (some v) =
      parseFloatQ ((p ++ ',' :: q).filter (fun c => ¬ c = ',')) := by
  have hcm : ',' ∈ (jsTrim v).filter keptByStrip := by
    rw [hs]; exact List.mem_append_right p (List.mem_cons_self _ _)
  have hne := stripped_has_sep (Or.inr rfl) hcm
  have hld : lastIndexOf '.' (p ++ ',' :: q) = -1 :=
    lastIndexOf_of_not_mem (not_mem_append_cons (by decide) hdp hdq)
  have hlc : lastIndexOf ',' (p ++ ',' :: q) = (p.length : Int) :=
    lastIndexOf_append hcq
  have hL : (p ++ ',' :: q).length = p.length + 1 + q.length := by
    simp [List.length_append]
    omega
  simp only [parseMetricNumber]
  rw [if_neg hne, hs, hld, hlc, if_neg (by omega), if_pos (by omega), hL,
    if_neg (by push_cast; omega)]
  rfl

/-- Only dots, 1–2 characters after the last dot: that dot is the decimal
separator, the earlier ones are removed. -/
theorem pmn_dot_decimal {v p q : Str}
    (hs : (jsTrim v).filter keptByStrip = p ++ '.' :: q)
    (hdq : '.' ∉ q) (hcp : ',' ∉ p) (hcq : ',' ∉ q)
    (hl1 : 1 ≤ q.length) (hl2 : q.length ≤ 2) :
    parseMetricNumber (some v) =
      parseFloatQ (p.filter (fun c => ¬ c = '.') ++ '.' :: q) := by
  have hdm : '.' ∈ (jsTrim v).filter keptByStrip := by
    rw [hs]; exact List.mem_append_right p (List.mem_cons_self _ _)
  have hne := stripped_has_sep (Or.inl rfl) hdm
  have hlc : lastIndexOf ',' (p ++ '.' :: q) = -1 :=
    lastIndexOf_of_not_mem (not_mem_append_cons (by decide) hcp hcq)
  have hld : lastIndexOf '.' (p ++ '.' :: q) = (p.length : Int) :=
    lastIndexOf_append hdq
  have hL : (p ++ '.' :: q).length = p.length + 1 + q.length := by
    simp [List.length_append]
    omega
  simp only [parseMetricNumber]
  rw [if_neg hne, hs, hld, hlc, if_neg (by omega), if_neg (by omega),
    if_pos (by omega), hL, if_pos (by push_cast; omega),
    decimalRejoin_append hdq]
  rfl

/-- Only dots, more than 2 (or zero) characters after the last dot: every
dot is removed as a thousands separator. -/
theorem pmn_dot_thousands {v p q : Str}
    (hs : (jsTrim v).filter keptByStrip = p ++ '.' :: q)
    (hdq : '.' ∉ q) (hcp : ',' ∉ p) (hcq : ',' ∉ q)
    (hlen : ¬(1 ≤ q.length ∧ q.length ≤ 2)) :
    parseMetricNumber (some v) =
      parseFloatQ ((p ++ '.' :: q).filter (fun c => ¬ c = '.')) := by
  have hdm : '.' ∈ (jsTrim v).filter keptByStrip := by
    rw [hs]; exact List.mem_append_right p (List.mem_cons_self _ _)
  have hne := stripped_has_sep (Or.inl rfl) hdm
  have hlc : lastIndexOf ',' (p ++ '.' :: q) = -1 :=
    lastIndexOf_of_not_mem (not_mem_append_cons (by decide) hcp hcq)
  have hld : lastIndexOf '.' (p ++ '.' :: q) = (p.length : Int) :=
    lastIndexOf_append hdq
  have hL : (p ++ '.' :: q).length = p.length + 1 + q.length := by
    simp [List.length_append]
    omega
  simp only [parseMetricNumber]
  rw [if_neg hne, hs, hld, hlc, if_neg (by omega), if_neg (by omega),
    if_pos (by omega), hL, if_neg (by push_cast; omega)]
  rfl

/-- **C3 (amended).** `parseMetricNumber` follows the locale-tolerant
separator rules and the stated test vectors: with both `'.'` and `','` in
the stripped value, the separator occurring later is the decimal separator
and the other kind is removed (a decimal comma being rewritten to a dot);
with only one separator kind, 1–2 trailing characters after its last
occurrence (in well-formed numbers, digits) make it the decimal separator,
otherwise all its occurrences are removed as thousands separators; and
`"1,234.56" ↦ 1234.56`, `"1 234,56" ↦ 1234.56`, `"€1,234" ↦ 1234`,
`"1,23" ↦ 1.23`, while `""`, `"—"`, `"-"` and `null` yield MISSING. -/
theorem C3_parseMetricNumber :
    (∀ v p q : Str, (jsTrim v).filter keptByStrip = p ++ '.' :: q →
        '.' ∉ q → ',' ∉ q → ',' ∈ p →
        parseMetricNumber (some v) =
          parseFloatQ ((p ++ '.' :: q).filter (fun c => ¬ c = ','))) ∧
      (∀ v p q : Str, (jsTrim v).filter keptByStrip = p ++ ',' :: q →
        ',' ∉ q → '.' ∉ q → '.' ∈ p →
        parseMetricNumber (some v) =
          parseFloatQ (replaceFirst ',' '.'
            ((p ++ ',' :: q).filter (fun c => ¬ c = '.')))) ∧
      (∀ v p q : Str, (jsTrim v).filter keptByStrip = p ++ ',' :: q →
        ',' ∉ q → '.' ∉ p → '.' ∉ q → 1 ≤ q.length → q.length ≤ 2 →
        parseMetricNumber (some v) =
          parseFloatQ (p.filter (fun c => ¬ c = ',') ++ '.' :: q)) ∧
      (∀ v p q : Str, (jsTrim v).filter keptByStrip = p ++ ',' :: q →
        ',' ∉ q → '.' ∉ p → '.' ∉ q → ¬(1 ≤ q.length ∧ q.length ≤ 2) →
        parseMetricNumber (some v) =
          parseFloatQ ((p ++ ',' :: q).filter (fun c => ¬ c = ','))) ∧
      (∀ v p q : Str, (jsTrim v).filter keptByStrip = p ++ '.' :: q →
        '.' ∉ q → ',' ∉ p → ',' ∉ q → 1 ≤ q.length → q.length ≤ 2 →
        parseMetricNumber (some v) =
          parseFloatQ (p.filter (fun c => ¬ c = '.') ++ '.' :: q)) ∧
      (∀ v p q : Str, (jsTrim v).filter keptByStrip = p ++ '.' :: q →
        '.' ∉ q → ',' ∉ p → ',' ∉ q → ¬(1 ≤ q.length ∧ q.length ≤ 2) →
        parseMetricNumber (some v) =
          parseFloatQ ((p ++ '.' :: q).filter (fun c => ¬ c = '.'))) ∧
      parseMetricNumber (some "1,234.56".toList) = some (1234.56 : ℚ) ∧
      parseMetricNumber (some "1 234,56".toList) = some (1234.56 : ℚ) ∧
      parseMetricNumber (some "€1,234".toList) = some (1234 : ℚ) ∧
      parseMetricNumber (some "1,23".toList) = some (1.23 : ℚ) ∧
      parseMetricNumber (some "".toList) = none ∧
      parseMetricNumber (some "—".toList) = none ∧
      parseMetricNumber (some "-".toList) = none ∧
      parseMetricNumber none = none := by
  refine ⟨fun v p q hs h1 h2 h3 => pmn_both_dot hs h1 h2 h3,
    fun v p q hs h1 h2 h3 => pmn_both_comma hs h1 h2 h3,
    fun v p q hs h1 h2 h3 h4 h5 => pmn_comma_decimal hs h1 h2 h3 h4 h5,
    fun v p q hs h1 h2 h3 h4 => pmn_comma_thousands hs h1 h2 h3 h4,
    fun v p q hs h1 h2 h3 h4 h5 => pmn_dot_decimal hs h1 h2 h3 h4 h5,
    fun v p q hs h1 h2 h3 h4 => pmn_dot_thousands hs h1 h2 h3 h4,
    ?_, ?_, ?_, ?_, by decide, by decide, by decide, rfl⟩
  · have h : parseMetricNumber (some "1,234.56".toList) = some (mkRat 123456 100) := by
      decide
    rw [h]
    norm_num [Rat.mkRat_eq_divInt, Rat.divInt_eq_div]
  · have h : parseMetricNumber (some "1 234,56".toList) = some (mkRat 123456 100) := by
      decide
    rw [h]
    norm_num [Rat.mkRat_eq_divInt, Rat.divInt_eq_div]
  · have h : parseMetricNumber (some "€1,234".toList) = some (mkRat 1234 1) := by
      decide
    rw [h]
    norm_num [Rat.mkRat_eq_divInt, Rat.divInt_eq_div]
  · have h : parseMetricNumber (some "1,23".toList) = some (mkRat 123 100) := by
      decide
    rw [h]
    norm_num [Rat.mkRat_eq_divInt, Rat.divInt_eq_div]

/-- **C3 (counterexample to the claim as stated).**  On `"12,3-"` (only
commas; the characters after the last comma are `"3-"`, not a run of 1–2
digits) the code still treats the comma as decimal and yields `12.3`,
whereas the claim's "otherwise all its occurrences are removed as
thousands separators" would yield `123`. -/
theorem C3_counterexample :
    (jsTrim "12,3-".toList).filter keptByStrip = "12,3-".toList ∧
      ¬ ("3-".toList.all Char.isDigit = true) ∧
      parseMetricNumber (some "12,3-".toList) = some (mkRat 123 10) ∧
      parseFloatQ ("12,3-".toList.filter (fun c => ¬ c = ',')) = some (mkRat 123 1) ∧
      ¬ parseMetricNumber (some "12,3-".toList) =
          parseFloatQ ("12,3-".toList.filter (fun c => ¬ c = ',')) :=
  ⟨by decide, by decide, by decide, by decide, by decide⟩

/-- Witness for C3 at a concrete decomposition (`"1,23"` with one character
before and two after the comma). -/
theorem C3_witness :
    parseMetricNumber (some "1,23".toList) =
      parseFloatQ ("1".toList.filter (fun c => ¬ c = ',') ++ '.' :: "23".toList) :=
  C3_parseMetricNumber.2.2.1 "1,23".toList "1".toList "23".toList (by decide)
    (by decide) (by decide) (by decide) (by decide) (by decide)

/-! # C5: `findHeaderRowIndex` returns the first qualifying row -/

/-- The header-row guard of `findHeaderRowIndex`: at least 3 cells and
some normalized cell matching the search-term header key. -/
def headerRowQualifies (row : List Str) : Bool :=
  ¬ row.length < 3 && row.any (fun c => isSearchTermHeaderKey (normalizeHeader c))

theorem findHeaderRowIndexAux_spec :
    ∀ (rows : List (List Str)) (i : Nat),
      (findHeaderRowIndexAux i rows = -1 ∧
          ∀ r ∈ rows, headerRowQualifies r = false) ∨
        (∃ j : Nat, findHeaderRowIndexAux i rows = ((i + j : Nat) : Int) ∧
          (∃ r, rows.get? j = some r ∧ headerRowQualifies r = true) ∧
          ∀ k < j, ∀ r, rows.get? k = some r → headerRowQualifies r = false) := by
  intro rows
  induction rows with
  | nil =>
    intro i
    exact Or.inl ⟨rfl, by simp⟩
  | cons row rest ih =>
    intro i
    by_cases hq : headerRowQualifies row = true
    · refine Or.inr ⟨0, ?_, ⟨row, rfl, hq⟩, by omega⟩
      have h3 : ¬ row.length < 3 := by
        intro hlt
        rw [headerRowQualifies] at hq
        simp [hlt] at hq
      have hany : row.any (fun c => isSearchTermHeaderKey (normalizeHeader c)) = true := by
        rw [headerRowQualifies] at hq
        exact (Bool.and_eq_true _ _ |>.mp hq).2
      rw [findHeaderRowIndexAux, if_neg h3, if_pos hany]
      simp
    · have hq' : headerRowQualifies row = false := Bool.not_eq_true _ |>.mp hq
      have hstep : findHeaderRowIndexAux i (row :: rest) = findHeaderRowIndexAux (i + 1) rest := by
        rw [findHeaderRowIndexAux]
        by_cases h3 : row.length < 3
        · rw [if_pos h3]
        · rw [if_neg h3, if_neg ?hany]
          case hany =>
            intro hany
            rw [headerRowQualifies] at hq
            simp [h3, hany] at hq
      rcases ih (i + 1) with ⟨hnone, hall⟩ | ⟨j, hj, ⟨r, hr, hrq⟩, hmin⟩
      · refine Or.inl ⟨by rw [hstep]; exact hnone, ?_⟩
        intro r hr
        rcases List.mem_cons.mp hr with hr0 | hr1
        · rw [hr0]; exact hq'
        · exact hall r hr1
      · refine Or.inr ⟨j + 1, ?_, ⟨r, by simpa using hr, hrq⟩, ?_⟩
        · rw [hstep, hj]
          congr 1
          omega
        · intro k hk r' hr'
          cases k with
          | zero =>
            simp at hr'
            rw [← hr']
            exact hq'
          | succ k' =>
            exact hmin k' (by omega) r' (by simpa using hr')

/-- **C5.** `findHeaderRowIndex` returns the smallest index of a row with
at least 3 cells and a normalized cell matching the search-term header-key
predicate (shorter rows never qualify); when no row qualifies it returns
`-1` and `parseSearchTermsCsv` takes the simple-mode path
`parseSimpleHeaderCsv`, which treats the first grid row as the header. -/
theorem C5_findHeaderRowIndex (rows : List (List Str)) (warnings : List Str) :
    (∀ i : Nat, findHeaderRowIndex rows = (i : Int) →
      (∃ r, rows.get? i = some r ∧ headerRowQualifies r = true) ∧
        ∀ k < i, ∀ r, rows.get? k = some r → headerRowQualifies r = false) ∧
      (findHeaderRowIndex rows = -1 →
        (∀ r ∈ rows, headerRowQualifies r = false) ∧
          parseSearchTermsCsvGrid warnings rows = parseSimpleHeaderCsv rows warnings ∧
          (parseSearchTermsCsvGrid warnings rows).columns =
            (if (simpleRawCols rows).isEmpty then
              [if (detectSearchTermColumn (simpleRawCols rows)).isEmpty then
                "Search term".toList
              else detectSearchTermColumn (simpleRawCols rows)]
            else simpleRawCols rows)) := by
  constructor
  · intro i hi
    rcases findHeaderRowIndexAux_spec rows 0 with ⟨hnone, _⟩ | ⟨j, hj, hex, hmin⟩
    · rw [findHeaderRowIndex] at hi
      rw [hi] at hnone
      omega
    · rw [findHeaderRowIndex] at hi
      rw [hi] at hj
      have hij : i = j := by omega
      rw [hij]
      exact ⟨hex, hmin⟩
  · intro hnone
    have hsimple : parseSearchTermsCsvGrid warnings rows = parseSimpleHeaderCsv rows warnings := by
      rw [parseSearchTermsCsvGrid]
      simp only [hnone]
      simp
    refine ⟨?_, hsimple, ?_⟩
    · rcases findHeaderRowIndexAux_spec rows 0 with ⟨_, hall⟩ | ⟨j, hj, _, _⟩
      · exact hall
      · rw [findHeaderRowIndex] at hnone
        rw [hnone] at hj
        omega
    · rw [hsimple, parseSimpleHeaderCsv]

/-- Witness for C5: a grid whose rows are all too short or non-matching
falls back to simple mode. -/
theorem C5_witness :
    parseSearchTermsCsvGrid [] [["A".toList, "B".toList, "C".toList]] =
      parseSimpleHeaderCsv [["A".toList, "B".toList, "C".toList]] [] :=
  ((C5_findHeaderRowIndex [["A".toList, "B".toList, "C".toList]] []).2
    (by decide)).2.1

/-! # C8: order independence of `detectSearchTermColumn` -/

/-- **C8 (counterexample).** `detectSearchTermColumn` is *not*
order-independent: `"search term"` and `"queries"` are both exact
candidates, and the first match wins, so the result changes content under
a permutation. -/
theorem C8_counterexample :
    (["search term".toList, "queries".toList] : List Str).Perm
        ["queries".toList, "search term".toList] ∧
      detectSearchTermColumn ["search term".toList, "queries".toList] =
        "search term".toList ∧
      detectSearchTermColumn ["queries".toList, "search term".toList] =
        "queries".toList ∧
      ¬ detectSearchTermColumn ["search term".toList, "queries".toList] =
          detectSearchTermColumn ["queries".toList, "search term".toList] :=
  ⟨List.Perm.swap _ _ _, by decide, by decide, by decide⟩

theorem find?_perm_unique {p : Str → Bool} {l l' : List Str}
    (hp : l.Perm l')
    (hu : ∀ c ∈ l, ∀ d ∈ l, p c = true → p d = true → c = d) :
    l.find? p = l'.find? p := by
  cases h1 : l.find? p with
  | none =>
    cases h2 : l'.find? p with
    | none => rfl
    | some c =>
      have hc : p c = true := List.find?_some h2
      have hm : c ∈ l := hp.mem_iff.mpr (List.mem_of_find?_eq_some h2)
      have := List.find?_eq_none.mp h1 c hm
      rw [hc] at this
      exact absurd this (by simp)
  | some c =>
    cases h2 : l'.find? p with
    | none =>
      have hc : p c = true := List.find?_some h1
      have hm : c ∈ l' := hp.mem_iff.mp (List.mem_of_find?_eq_some h1)
      have := List.find?_eq_none.mp h2 c hm
      rw [hc] at this
      exact absurd this (by simp)
    | some c' =>
      have hc : p c = true := List.find?_some h1
      have hc' : p c' = true := List.find?_some h2
      have hm : c ∈ l := List.mem_of_find?_eq_some h1
      have hm' : c' ∈ l := hp.mem_iff.mpr (List.mem_of_find?_eq_some h2)
      rw [hu c hm c' hm' hc hc']

/-- **C8 (amended).** `detectSearchTermColumn` is order-independent for
every permutation, provided some column matches one of the three detection
tiers (so the first-column fallback is not taken) and within each tier any
two matching columns have the same content. -/
theorem C8_detectSearchTermColumn_perm (cols cols' : List Str)
    (hp : cols.Perm cols')
    (hex : ∀ c ∈ cols, ∀ d ∈ cols, searchTermExactKey (normalizeHeader c) = true →
      searchTermExactKey (normalizeHeader d) = true → c = d)
    (hen : ∀ c ∈ cols, ∀ d ∈ cols, searchTermEnHeuristic (normalizeHeader c) = true →
      searchTermEnHeuristic (normalizeHeader d) = true → c = d)
    (hru : ∀ c ∈ cols, ∀ d ∈ cols, searchTermRuHeuristic (normalizeHeader c) = true →
      searchTermRuHeuristic (normalizeHeader d) = true → c = d)
    (hsome : ∃ c ∈ cols, searchTermExactKey (normalizeHeader c) = true ∨
      searchTermEnHeuristic (normalizeHeader c) = true ∨
      searchTermRuHeuristic (normalizeHeader c) = true) :
    detectSearchTermColumn cols = detectSearchTermColumn cols' := by
  obtain ⟨c0, hc0, hc0p⟩ := hsome
  have hne : cols.isEmpty = false := by
    cases cols with
    | nil => exact absurd hc0 (by simp)
    | cons x xs => rfl
  have hne' : cols'.isEmpty = false := by
    cases cols' with
    | nil =>
      exact absurd (hp.mem_iff.mp hc0) (by simp)
    | cons x xs => rfl
  rw [detectSearchTermColumn, detectSearchTermColumn,
    if_neg (by rw [hne]; simp), if_neg (by rw [hne']; simp),
    find?_perm_unique hp hex]
  cases h1 : cols'.find? (fun c => searchTermExactKey (normalizeHeader c)) with
  | some c => rfl
  | none =>
    rw [find?_perm_unique hp hen]
    cases h2 : cols'.find? (fun c => searchTermEnHeuristic (normalizeHeader c)) with
    | some c => rfl
    | none =>
      rw [find?_perm_unique hp hru]
      cases h3 : cols'.find? (fun c => searchTermRuHeuristic (normalizeHeader c)) with
      | some c => rfl
      | none =>
        -- contradicts hsome: no tier matched any column
        have hm0 : c0 ∈ cols' := hp.mem_iff.mp hc0
        rcases hc0p with hx | hx | hx
        · have := List.find?_eq_none.mp h1 c0 hm0
          rw [hx] at this
          exact absurd this (by simp)
        · have := List.find?_eq_none.mp h2 c0 hm0
          rw [hx] at this
          exact absurd this (by simp)
        · have := List.find?_eq_none.mp h3 c0 hm0
          rw [hx] at this
          exact absurd this (by simp)

/-- Witness for the amended C8 at a concrete column list and permutation. -/
theorem C8_witness :
    detectSearchTermColumn ["Campaign".toList, "Search term".toList] =
      detectSearchTermColumn ["Search term".toList, "Campaign".toList] :=
  C8_detectSearchTermColumn_perm _ _ (List.Perm.swap _ _ _)
    (by decide) (by decide) (by decide) (by decide)

/-! # C6: `sortTotals` orders totals by bucket priority, stably -/

theorem localeCompare_refl : ∀ a : Str, localeCompare a a = 0
  | [] => rfl
  | c :: rest => by
    rw [localeCompare, if_neg (lt_irrefl _), if_neg (lt_irrefl _)]
    exact localeCompare_refl rest

theorem localeCompare_neg : ∀ a b : Str, localeCompare a b = - localeCompare b a := by
  intro a
  induction a with
  | nil =>
    intro b
    cases b with
    | nil => rfl
    | cons d ds => rfl
  | cons c cs ih =>
    intro b
    cases b with
    | nil => rfl
    | cons d ds =>
      rw [localeCompare, localeCompare]
      rcases Nat.lt_trichotomy c.toNat d.toNat with h | h | h
      · rw [if_pos h, if_neg (by omega), if_pos h]
      · rw [if_neg (by omega), if_neg (by omega), if_neg (by omega), if_neg (by omega)]
        exact ih ds
      · rw [if_neg (by omega), if_pos h, if_pos h]
        rfl

theorem localeCompare_trans :
    ∀ a b c : Str, localeCompare a b ≤ 0 → localeCompare b c ≤ 0 →
      localeCompare a c ≤ 0 := by
  intro a
  induction a with
  | nil =>
    intro b c _ _
    cases c with
    | nil => rw [localeCompare]
    | cons z zs => rw [localeCompare]; omega
  | cons x xs ih =>
    intro b c h1 h2
    cases b with
    | nil => rw [localeCompare] at h1; omega
    | cons y ys =>
      cases c with
      | nil => rw [localeCompare] at h2; omega
      | cons z zs =>
        rw [localeCompare] at h1 h2 ⊢
        rcases Nat.lt_trichotomy x.toNat y.toNat with hxy | hxy | hxy
        · rcases Nat.lt_trichotomy y.toNat z.toNat with hyz | hyz | hyz
          · rw [if_pos (by omega)]; omega
          · rw [if_pos (by omega)]; omega
          · rw [if_neg (by omega), if_pos hyz] at h2; omega
        · rw [if_neg (by omega), if_neg (by omega)] at h1
          rcases Nat.lt_trichotomy y.toNat z.toNat with hyz | hyz | hyz
          · rw [if_pos (by omega)]; omega
          · rw [if_neg (by omega), if_neg (by omega)] at h2
            rw [if_neg (by omega), if_neg (by omega)]
            exact ih ys zs h1 h2
          · rw [if_neg (by omega), if_pos hyz] at h2; omega
        · rw [if_neg (by omega), if_pos hxy] at h1; omega

theorem totalsLE_total (col : Str) : ∀ a b : Row, totalsLE col a b ∨ totalsLE col b a := by
  intro a b
  rw [totalsLE, totalsLE, cmpTotalRows, cmpTotalRows]
  by_cases h : totalRank col a = totalRank col b
  · rw [if_neg (not_not_intro h), if_neg (not_not_intro h.symm)]
    have := localeCompare_neg (totalBucket (totalRowLabel col a))
      (totalBucket (totalRowLabel col b))
    omega
  · rw [if_pos h, if_pos (fun hc => h hc.symm)]
    omega

theorem totalsLE_trans (col : Str) :
    ∀ a b c : Row, totalsLE col a b → totalsLE col b c → totalsLE col a c := by
  intro a b c h1 h2
  rw [totalsLE, cmpTotalRows] at h1 h2 ⊢
  by_cases hab : totalRank col a = totalRank col b
  · by_cases hbc : totalRank col b = totalRank col c
    · rw [if_neg (not_not_intro hab)] at h1
      rw [if_neg (not_not_intro hbc)] at h2
      rw [if_neg (not_not_intro (hab.trans hbc))]
      exact localeCompare_trans _ _ _ h1 h2
    · rw [if_neg (not_not_intro hab)] at h1
      rw [if_pos hbc] at h2
      rw [if_pos (by omega)]
      omega
  · by_cases hbc : totalRank col b = totalRank col c
    · rw [if_pos hab] at h1
      rw [if_neg (not_not_intro hbc)] at h2
      rw [if_pos (by omega)]
      omega
    · rw [if_pos hab] at h1
      rw [if_pos hbc] at h2
      rw [if_pos (by omega)]
      omega

theorem orderedInsert_filter {α : Type} (r : α → α → Prop) [DecidableRel r]
    (p : α → Bool) :
    ∀ (x : α) (l : List α), (p x = true → ∀ b ∈ l, p b = true → r x b) →
      (List.orderedInsert r x l).filter p =
        if p x = true then x :: l.filter p else l.filter p := by
  intro x l
  induction l with
  | nil =>
    intro _
    simp only [List.orderedInsert, List.filter_cons, List.filter_nil]
  | cons b t ih =>
    intro h
    rw [List.orderedInsert]
    by_cases hr : r x b
    · rw [if_pos hr, List.filter_cons]
    · rw [if_neg hr]
      have h' : p x = true → ∀ b' ∈ t, p b' = true → r x b' :=
        fun hx b' hb' hpb' => h hx b' (List.mem_cons_of_mem b hb') hpb'
      by_cases hx : p x = true
      · have hpb : p b = false := by
          by_cases hpb : p b = true
          · exact absurd (h hx b (List.mem_cons_self b t) hpb) hr
          · exact Bool.not_eq_true _ |>.mp hpb
        rw [List.filter_cons, List.filter_cons]
        simp only [hpb, Bool.false_eq_true, if_false]
        rw [ih h', if_pos hx]
      · rw [List.filter_cons, List.filter_cons, ih h', if_neg hx, if_neg hx]

theorem insertionSort_filter {α : Type} (r : α → α → Prop) [DecidableRel r]
    (p : α → Bool) (hp : ∀ a b, p a = true → p b = true → r a b) :
    ∀ l : List α, (List.insertionSort r l).filter p = l.filter p := by
  intro l
  induction l with
  | nil => rfl
  | cons x t ih =>
    rw [List.insertionSort,
      orderedInsert_filter r p x _ (fun hx b _ hb => hp x b hx hb)]
    by_cases hx : p x = true
    · rw [if_pos hx, ih, List.filter_cons, if_pos hx]
    · rw [if_neg hx, ih, List.filter_cons, if_neg hx]

/-- A bare total row carrying its label in `searchTerm` (used for the
concrete ordering facts of C6). -/
def totalRowOf (t : Str) (i : Nat) : Row :=
  { rowId := Sum.inr i, rowType := RowType.total, cells := [],
    searchTerm := t, campaign := [], adGroup := [] }

/-- **C6.** `sortTotals` returns a permutation of its input that is sorted
by the comparator order (bucket priority rank ascending, then
locale-compare of the bucket text), it is stable (rows with equal rank and
equal bucket keep their relative input order), unknown buckets rank 999
after all known ones, and concretely `Total: Performance Max` sorts before
`Total: Search`, with `Total: Shopping` after all named buckets. -/
theorem C6_sortTotals :
    (∀ (col : Str) (rows : List Row),
      (sortTotals rows col).Perm rows ∧
        List.Sorted (totalsLE col) (sortTotals rows col) ∧
        ∀ (rk : Nat) (bk : Str),
          (sortTotals rows col).filter
              (fun y => totalRank col y = rk ∧
                totalBucket (totalRowLabel col y) = bk) =
            rows.filter
              (fun y => totalRank col y = rk ∧
                totalBucket (totalRowLabel col y) = bk)) ∧
      totalRank "Search term".toList (totalRowOf "Total: Performance Max".toList 1) = 0 ∧
      totalRank "Search term".toList (totalRowOf "Total: Search".toList 2) = 5 ∧
      totalRank "Search term".toList (totalRowOf "Total: Shopping".toList 3) = 999 ∧
      sortTotals
          [totalRowOf "Total: Search".toList 1, totalRowOf "Total: Shopping".toList 2,
            totalRowOf "Total: Performance Max".toList 3] "Search term".toList =
        [totalRowOf "Total: Performance Max".toList 3,
          totalRowOf "Total: Search".toList 1,
          totalRowOf "Total: Shopping".toList 2] := by
  refine ⟨?_, by decide, by decide, by decide, by decide⟩
  intro col rows
  haveI : IsTotal Row (totalsLE col) := ⟨totalsLE_total col⟩
  haveI : IsTrans Row (totalsLE col) := ⟨totalsLE_trans col⟩
  refine ⟨List.perm_insertionSort _ _, List.sorted_insertionSort _ _, ?_⟩
  intro rk bk
  apply insertionSort_filter
  intro a b ha hb
  simp only [decide_eq_true_eq] at ha hb
  rw [totalsLE, cmpTotalRows, if_neg (not_not_intro (ha.1.trans hb.1.symm)),
    ha.2, hb.2, localeCompare_refl]

/-! # C7: row order of the assembled report -/

/-- The display stage of a row kind: meta rows first, then data, then
totals. -/
def rowStage : RowType → Nat
  | RowType.meta => 0
  | RowType.data => 1
  | RowType.total => 2

/-- Strict order on the numeric (data/total) row identifiers. -/
def rowIdLt : Sum Str Nat → Sum Str Nat → Prop
  | Sum.inr m, Sum.inr n => m < n
  | _, _ => False

theorem mem_mapWithIndex {f : Nat → Obj → Row} :
    ∀ {j : Nat} {l : List Obj} {x : Row}, x ∈ mapWithIndex f j l → ∃ k a, x = f k a := by
  intro j l
  induction l generalizing j with
  | nil => intro x hx; simp [mapWithIndex] at hx
  | cons r rest ih =>
    intro x hx
    rw [mapWithIndex] at hx
    rcases List.mem_cons.mp hx with hx | hx
    · exact ⟨j, r, hx⟩
    · exact ih hx

theorem mapWithIndex_rowId_bound {f : Nat → Obj → Row}
    (hf : ∀ i r, (f i r).rowId = Sum.inr (i + 1)) :
    ∀ (j : Nat) (l : List Obj) (x : Sum Str Nat),
      x ∈ (mapWithIndex f j l).map Row.rowId → ∃ k, x = Sum.inr k ∧ j < k := by
  intro j l
  induction l generalizing j with
  | nil => intro x hx; simp [mapWithIndex] at hx
  | cons r rest ih =>
    intro x hx
    rw [mapWithIndex, List.map_cons] at hx
    rcases List.mem_cons.mp hx with hx | hx
    · exact ⟨j + 1, by rw [hx, hf], by omega⟩
    · obtain ⟨k, hk, hjk⟩ := ih (j + 1) x hx
      exact ⟨k, hk, by omega⟩

theorem mapWithIndex_rowId_pairwise {f : Nat → Obj → Row}
    (hf : ∀ i r, (f i r).rowId = Sum.inr (i + 1)) :
    ∀ (j : Nat) (l : List Obj),
      ((mapWithIndex f j l).map Row.rowId).Pairwise rowIdLt := by
  intro j l
  induction l generalizing j with
  | nil => exact List.Pairwise.nil
  | cons r rest ih =>
    rw [mapWithIndex, List.map_cons]
    refine List.Pairwise.cons ?_ (ih (j + 1))
    intro b hb
    obtain ⟨k, hk, hjk⟩ := mapWithIndex_rowId_bound hf (j + 1) rest b hb
    rw [hf, hk]
    show j + 1 < k
    omega

theorem pairwise_le_of_const {l : List Nat} {v : Nat} (h : ∀ x ∈ l, x = v) :
    l.Pairwise (fun a b => a ≤ b) := by
  induction l with
  | nil => exact List.Pairwise.nil
  | cons x t ih =>
    refine List.Pairwise.cons ?_ (ih (fun y hy => h y (List.mem_cons_of_mem x hy)))
    intro b hb
    rw [h x (List.mem_cons_self x t), h b (List.mem_cons_of_mem x hb)]

theorem parseGrid_header {w : List Str} {grid : List (List Str)}
    (h : ¬ findHeaderRowIndex grid = -1) :
    parseSearchTermsCsvGrid w grid =
      parseHeaderMode w grid (findHeaderRowIndex grid).toNat := by
  simp only [parseSearchTermsCsvGrid]
  rw [if_neg h]

/-- **C7 (amended).** In header-detected mode the assembled `rows` sequence
is partitioned and ordered as `meta → data → total`: the stage sequence is
monotone, there is at most one meta row, the data segment keeps its
original source order (strictly increasing numeric row ids), and the total
segment is sorted in the `sortTotals` bucket order.  (In the simple-mode
fallback the rows keep pure source order with inline classification and no
reordering; see the counterexample.) -/
theorem C7_rows_partition (warnings : List Str) (grid : List (List Str))
    (h : ¬ findHeaderRowIndex grid = -1) :
    ((parseSearchTermsCsvGrid warnings grid).rows.map
        (fun r => rowStage r.rowType)).Pairwise (fun a b => a ≤ b) ∧
      ((parseSearchTermsCsvGrid warnings grid).rows.filter
          (fun r => r.rowType = RowType.meta)).length ≤ 1 ∧
      (((parseSearchTermsCsvGrid warnings grid).rows.filter
          (fun r => r.rowType = RowType.data)).map Row.rowId).Pairwise rowIdLt ∧
      List.Sorted
        (totalsLE (parseSearchTermsCsvGrid warnings grid).searchTermColumnName)
        ((parseSearchTermsCsvGrid warnings grid).rows.filter
          (fun r => r.rowType = RowType.total)) := by
  rw [parseGrid_header h]
  have hrowsd :
      (parseHeaderMode warnings grid (findHeaderRowIndex grid).toNat).rows =
        hmMetaRows grid (findHeaderRowIndex grid).toNat ++
          ((hmProcessed grid (findHeaderRowIndex grid).toNat).filter
            (fun r => r.rowType = RowType.data)) ++
            sortTotals
              ((hmProcessed grid (findHeaderRowIndex grid).toNat).filter
                (fun r => r.rowType = RowType.total))
              (hmStc grid (findHeaderRowIndex grid).toNat) := rfl
  have hstc :
      (parseHeaderMode warnings grid (findHeaderRowIndex grid).toNat).searchTermColumnName =
        hmStc grid (findHeaderRowIndex grid).toNat := rfl
  rw [hrowsd, hstc]
  -- abbreviations
  generalize hgi : (findHeaderRowIndex grid).toNat = i
  set M := hmMetaRows grid i with hMdef
  set D := (hmProcessed grid i).filter (fun r => r.rowType = RowType.data) with hDdef
  set T :=
    sortTotals ((hmProcessed grid i).filter (fun r => r.rowType = RowType.total))
      (hmStc grid i) with hTdef
  have hMty : ∀ r ∈ M, r.rowType = RowType.meta := by
    intro r hr
    rw [hMdef, hmMetaRows] at hr
    cases hdr : hmDateRange grid i with
    | none => rw [hdr] at hr; simp at hr
    | some dr =>
      rw [hdr] at hr
      simp at hr
      rw [hr]
  have hMlen : M.length ≤ 1 := by
    rw [hMdef, hmMetaRows]
    cases hmDateRange grid i <;> simp
  have hDty : ∀ r ∈ D, r.rowType = RowType.data := by
    intro r hr
    have := List.of_mem_filter hr
    simpa using this
  have hTty : ∀ r ∈ T, r.rowType = RowType.total := by
    intro r hr
    rw [hTdef, sortTotals] at hr
    have hr' := List.mem_insertionSort _ |>.mp hr
    have := List.of_mem_filter hr'
    simpa using this
  -- the three segment filters
  have hMd : M.filter (fun r => r.rowType = RowType.data) = [] := by
    rw [List.filter_eq_nil_iff]
    intro r hr
    simp [hMty r hr]
  have hMt : M.filter (fun r => r.rowType = RowType.total) = [] := by
    rw [List.filter_eq_nil_iff]
    intro r hr
    simp [hMty r hr]
  have hMm : M.filter (fun r => r.rowType = RowType.meta) = M := by
    rw [List.filter_eq_self]
    intro r hr
    simp [hMty r hr]
  have hDd : D.filter (fun r => r.rowType = RowType.data) = D := by
    rw [List.filter_eq_self]
    intro r hr
    simp [hDty r hr]
  have hDm : D.filter (fun r => r.rowType = RowType.meta) = [] := by
    rw [List.filter_eq_nil_iff]
    intro r hr
    simp [hDty r hr]
  have hDt : D.filter (fun r => r.rowType = RowType.total) = [] := by
    rw [List.filter_eq_nil_iff]
    intro r hr
    simp [hDty r hr]
  have hTt : T.filter (fun r => r.rowType = RowType.total) = T := by
    rw [List.filter_eq_self]
    intro r hr
    simp [hTty r hr]
  have hTm : T.filter (fun r => r.rowType = RowType.meta) = [] := by
    rw [List.filter_eq_nil_iff]
    intro r hr
    simp [hTty r hr]
  have hTd : T.filter (fun r => r.rowType = RowType.data) = [] := by
    rw [List.filter_eq_nil_iff]
    intro r hr
    simp [hTty r hr]
  refine ⟨?_, ?_, ?_, ?_⟩
  · -- monotone stages
    rw [List.map_append, List.map_append, List.pairwise_append]
    refine ⟨?_, ?_, ?_⟩
    · rw [List.pairwise_append]
      refine ⟨?_, ?_, ?_⟩
      · exact pairwise_le_of_const (v := 0) (by
          intro x hx
          obtain ⟨r, hr, hrx⟩ := List.mem_map.mp hx
          rw [← hrx, hMty r hr]
          rfl)
      · exact pairwise_le_of_const (v := 1) (by
          intro x hx
          obtain ⟨r, hr, hrx⟩ := List.mem_map.mp hx
          rw [← hrx, hDty r hr]
          rfl)
      · intro a ha b hb
        obtain ⟨r, hr, hrx⟩ := List.mem_map.mp ha
        rw [← hrx, hMty r hr]
        exact Nat.zero_le _
    · exact pairwise_le_of_const (v := 2) (by
        intro x hx
        obtain ⟨r, hr, hrx⟩ := List.mem_map.mp hx
        rw [← hrx, hTty r hr]
        rfl)
    · intro a ha b hb
      obtain ⟨r', hr', hrx'⟩ := List.mem_map.mp hb
      rcases List.mem_append.mp ha with ha | ha
      · obtain ⟨r, hr, hrx⟩ := List.mem_map.mp ha
        rw [← hrx, ← hrx', hMty r hr, hTty r' hr']
        exact Nat.zero_le _
      · obtain ⟨r, hr, hrx⟩ := List.mem_map.mp ha
        rw [← hrx, ← hrx', hDty r hr, hTty r' hr']
        exact Nat.le_succ 1
  · -- at most one meta row
    rw [List.filter_append, List.filter_append, hMm, hDm, hTm]
    simpa using hMlen
  · -- data rows in source order
    rw [List.filter_append, List.filter_append, hMd, hDd, hTd,
      List.nil_append, List.append_nil]
    have hids : ((hmProcessed grid i).map Row.rowId).Pairwise rowIdLt := by
      rw [hmProcessed]
      exact mapWithIndex_rowId_pairwise (fun _ _ => rfl) 0 _
    have hsub : List.Sublist (D.map Row.rowId) ((hmProcessed grid i).map Row.rowId) := by
      rw [hDdef]
      exact List.Sublist.map _ (List.filter_sublist _)
    exact hids.sublist hsub
  · -- totals in bucket order
    rw [List.filter_append, List.filter_append, hMt, hDt, hTt,
      List.nil_append, List.nil_append]
    haveI : IsTotal Row (totalsLE (hmStc grid i)) := ⟨totalsLE_total _⟩
    haveI : IsTrans Row (totalsLE (hmStc grid i)) := ⟨totalsLE_trans _⟩
    rw [hTdef, sortTotals]
    exact List.sorted_insertionSort _ _

/-- **C7 (counterexample).** In the simple-mode fallback the rows keep
their source order with inline classification: on a grid whose second row
is a total label and third row is data (and no header row qualifies), the
assembled rows are `[total, data]`, so a total row precedes a data row,
contradicting the claimed `meta → data → total` partition for the
simple-mode path. -/
theorem C7_counterexample :
    findHeaderRowIndex
        [["A".toList, "B".toList, "C".toList],
          ["Total: Search".toList, "x".toList, "y".toList],
          ["term".toList, "x".toList, "y".toList]] = -1 ∧
      ((parseSearchTermsCsvGrid []
          [["A".toList, "B".toList, "C".toList],
            ["Total: Search".toList, "x".toList, "y".toList],
            ["term".toList, "x".toList, "y".toList]]).rows.map
          (fun r => r.rowType)) = [RowType.total, RowType.data] ∧
      ¬ ((parseSearchTermsCsvGrid []
          [["A".toList, "B".toList, "C".toList],
            ["Total: Search".toList, "x".toList, "y".toList],
            ["term".toList, "x".toList, "y".toList]]).rows.map
          (fun r => rowStage r.rowType)).Pairwise (fun a b => a ≤ b) := by
  refine ⟨by decide, by decide, ?_⟩
  intro hp
  have hmap : ((parseSearchTermsCsvGrid []
      [["A".toList, "B".toList, "C".toList],
        ["Total: Search".toList, "x".toList, "y".toList],
        ["term".toList, "x".toList, "y".toList]]).rows.map
      (fun r => rowStage r.rowType)) = [2, 1] := by decide
  rw [hmap] at hp
  have := (List.pairwise_cons.mp hp).1 1 (List.mem_cons_self 1 [])
  omega

/-- Witness for C7 at a concrete header-detected grid. -/
theorem C7_witness :
    ((parseSearchTermsCsvGrid []
        [["Search term".toList, "Campaign".toList, "Cost".toList],
          ["shoes".toList, "c1".toList, "1".toList]]).rows.filter
        (fun r => r.rowType = RowType.meta)).length ≤ 1 :=
  (C7_rows_partition []
    [["Search term".toList, "Campaign".toList, "Cost".toList],
      ["shoes".toList, "c1".toList, "1".toList]] (by decide)).2.1

/-! # C10: the reducer keeps negative texts unique up to normalization -/

/-- No two items of a negatives list share a normalized text. -/
def distinctKeys (l : List NegItem) : Prop :=
  l.Pairwise (fun a b => ¬ normKey a.text = normKey b.text)

def negInvN (n : NegState) : Prop :=
  distinctKeys n.items ∧ ∀ p ∈ n.byCampaign, distinctKeys p.2

/-- The uniqueness invariant of C10 on a reducer state. -/
def negInv (s : AppState) : Prop := negInvN s.negatives

theorem distinctKeys_nil : distinctKeys [] := List.Pairwise.nil

theorem distinctKeys_filter {l : List NegItem} (h : distinctKeys l)
    (p : NegItem → Bool) : distinctKeys (l.filter p) :=
  h.sublist (List.filter_sublist l)

theorem distinctKeys_map_matchType {l : List NegItem} (h : distinctKeys l)
    (id mt : Str) :
    distinctKeys
      (l.map (fun x => if x.id = id then { x with matchType := mt } else x)) := by
  rw [distinctKeys, List.pairwise_map]
  refine h.imp ?_
  intro a b hab
  by_cases ha : a.id = id <;> by_cases hb : b.id = id <;>
    simp [ha, hb] <;> exact hab

theorem distinctKeys_append {l : List NegItem} {x : NegItem} (h : distinctKeys l)
    (hx : ∀ y ∈ l, ¬ normKey y.text = normKey x.text) :
    distinctKeys (l ++ [x]) := by
  rw [distinctKeys, List.pairwise_append]
  refine ⟨h, List.pairwise_singleton _ _, ?_⟩
  intro a ha b hb
  rw [List.mem_singleton.mp hb]
  exact hx a ha

theorem objSet_forall {β : Type} {P : β → Prop} {o : List (Str × β)} {k : Str}
    {v : β} (ho : ∀ p ∈ o, P p.2) (hv : P v) : ∀ p ∈ objSet k v o, P p.2 := by
  intro p hp
  rw [objSet] at hp
  by_cases hc : o.any (fun q => q.1 = k) = true
  · rw [if_pos hc] at hp
    obtain ⟨q, hq, hqe⟩ := List.mem_map.mp hp
    by_cases hqk : q.1 = k
    · rw [if_pos hqk] at hqe
      rw [← hqe]
      exact hv
    · rw [if_neg hqk] at hqe
      rw [← hqe]
      exact ho q hq
  · rw [if_neg hc] at hp
    rcases List.mem_append.mp hp with hp | hp
    · exact ho p hp
    · rw [List.mem_singleton.mp hp]
      exact hv

theorem objGet_forall {β : Type} {P : β → Prop} {o : List (Str × β)}
    (ho : ∀ p ∈ o, P p.2) {k : Str} {v : β} (h : objGet o k = some v) : P v := by
  rw [objGet] at h
  cases hf : o.find? (fun p => p.1 = k) with
  | none => rw [hf] at h; simp at h
  | some q =>
    rw [hf] at h
    simp at h
    rw [← h]
    exact ho q (List.mem_of_find?_eq_some hf)

theorem distinct_getD_objGet {n : NegState} (h : negInvN n) (campaign : Str) :
    distinctKeys ((objGet n.byCampaign campaign).getD []) := by
  cases hg : objGet n.byCampaign campaign with
  | none => exact distinctKeys_nil
  | some l => exact objGet_forall h.2 hg

theorem not_exists_of_existsInList_false {text : Str} {l : List NegItem}
    (h : ¬ existsInList text l = true) :
    ∀ y ∈ l, ¬ normKey y.text = normKey text := by
  intro y hy he
  exact h (List.any_eq_true.mpr ⟨y, hy, by simpa using he⟩)

theorem reducer_preserves_negInv (s : AppState) (a : Action) (h : negInv s) :
    negInv (reducer s a) := by
  cases a with
  | reportLoaded payload =>
    exact ⟨distinctKeys_nil, fun p hp => absurd hp (List.not_mem_nil p)⟩
  | reportError filename error =>
    exact ⟨distinctKeys_nil, fun p hp => absurd hp (List.not_mem_nil p)⟩
  | setMode mode =>
    have hn : (reducer s (.setMode mode)).negatives = s.negatives := by
      simp only [reducer]
      by_cases hc : ¬ mode = "account".toList ∧ ¬ mode = "campaign".toList
      · rw [if_pos hc]
      · rw [if_neg hc]
    rw [negInv, hn]
    exact h
  | setSelectedCampaign campaign => exact h
  | addNegative textOpt matchTypeOpt scopeOpt campaignOpt markRow rowIdOpt freshId =>
    cases textOpt with
    | none => exact h
    | some t0 =>
      rw [negInv]
      simp only [reducer, Option.map_some']
      by_cases he : (jsTrim t0).isEmpty = true
      · rw [if_pos he]
        exact h
      · rw [if_neg he]
        by_cases hscope :
            orDefault scopeOpt s.ui.mode = "campaign".toList
        · rw [if_pos hscope]
          by_cases hex :
              existsInList (jsTrim t0)
                ((objGet s.negatives.byCampaign (normCampaignName campaignOpt)).getD []) = true
          · rw [if_pos hex]
            exact h
          · rw [if_neg hex]
            refine ⟨h.1, ?_⟩
            refine objSet_forall h.2 ?_
            exact distinctKeys_append (distinct_getD_objGet h _)
              (not_exists_of_existsInList_false hex)
        · rw [if_neg hscope]
          by_cases hex : existsInList (jsTrim t0) s.negatives.items = true
          · rw [if_pos hex]
            exact h
          · rw [if_neg hex]
            refine ⟨?_, h.2⟩
            exact distinctKeys_append h.1 (not_exists_of_existsInList_false hex)
  | removeNegativeByText textOpt scopeOpt campaignOpt unmarkRow rowIdOpt =>
    rw [negInv]
    simp only [reducer]
    by_cases he : (jsToLower (jsTrim (textOpt.getD []))).isEmpty = true
    · rw [if_pos he]
      exact h
    · rw [if_neg he]
      by_cases hscope : orDefault scopeOpt s.ui.mode = "campaign".toList
      · rw [if_pos hscope]
        refine ⟨h.1, ?_⟩
        refine objSet_forall h.2 ?_
        exact distinctKeys_filter (distinct_getD_objGet h _) _
      · rw [if_neg hscope]
        exact ⟨distinctKeys_filter h.1 _, h.2⟩
  | removeNegative id scopeOpt campaignOpt =>
    rw [negInv]
    simp only [reducer]
    by_cases hscope : orDefault scopeOpt s.ui.mode = "campaign".toList
    · rw [if_pos hscope]
      refine ⟨h.1, ?_⟩
      refine objSet_forall h.2 ?_
      exact distinctKeys_filter (distinct_getD_objGet h _) _
    · rw [if_neg hscope]
      exact ⟨distinctKeys_filter h.1 _, h.2⟩
  | updateNegativeMatchType id matchType scopeOpt campaignOpt =>
    rw [negInv]
    simp only [reducer]
    by_cases hscope : orDefault scopeOpt s.ui.mode = "campaign".toList
    · rw [if_pos hscope]
      refine ⟨h.1, ?_⟩
      refine objSet_forall h.2 ?_
      exact distinctKeys_map_matchType (distinct_getD_objGet h _) _ _
    · rw [if_neg hscope]
      exact ⟨distinctKeys_map_matchType h.1 _ _, h.2⟩

theorem negInv_initialState : negInv initialState :=
  ⟨distinctKeys_nil, fun p hp => absurd hp (List.not_mem_nil p)⟩

theorem foldl_reducer_negInv :
    ∀ (actions : List Action) (s : AppState), negInv s →
      negInv (actions.foldl reducer s) := by
  intro actions
  induction actions with
  | nil => exact fun s h => h
  | cons a rest ih =>
    intro s h
    exact ih (reducer s a) (reducer_preserves_negInv s a h)

/-- The list the `ADD_NEGATIVE` case checks for an existing normalized
text (account items, or the targeted campaign's list). -/
def targetedNegList (s : AppState) (scopeOpt campaignOpt : Option Str) :
    List NegItem :=
  if orDefault scopeOpt s.ui.mode = "campaign".toList then
    (objGet s.negatives.byCampaign (normCampaignName campaignOpt)).getD []
  else s.negatives.items

/-- **C10.** Every state reachable from the initial state through reducer
actions has no two account-level negatives, and no two negatives of any
per-campaign list, with the same normalized (trimmed, lower-cased) text;
and an `ADD_NEGATIVE` whose normalized text already occurs in the targeted
list leaves the negatives lists, the report and the mode/selection
unchanged (only the marked-row set may change). -/
theorem C10_reducer_unique :
    (∀ actions : List Action, negInv (runActions actions)) ∧
      ∀ (s : AppState) (textOpt matchTypeOpt scopeOpt campaignOpt : Option Str)
        (markRow : Bool) (rowIdOpt : Option (Sum Str Nat)) (freshId : Str),
        (∃ x ∈ targetedNegList s scopeOpt campaignOpt,
          normKey x.text = normKey (jsTrim (textOpt.getD []))) →
        (reducer s
            (Action.addNegative textOpt matchTypeOpt scopeOpt campaignOpt
              markRow rowIdOpt freshId)).negatives = s.negatives ∧
          (reducer s
              (Action.addNegative textOpt matchTypeOpt scopeOpt campaignOpt
                markRow rowIdOpt freshId)).report = s.report ∧
          (reducer s
              (Action.addNegative textOpt matchTypeOpt scopeOpt campaignOpt
                markRow rowIdOpt freshId)).ui.mode = s.ui.mode ∧
          (reducer s
              (Action.addNegative textOpt matchTypeOpt scopeOpt campaignOpt
                markRow rowIdOpt freshId)).ui.selectedCampaign =
            s.ui.selectedCampaign := by
  refine ⟨fun actions => foldl_reducer_negInv actions initialState negInv_initialState, ?_⟩
  intro s textOpt matchTypeOpt scopeOpt campaignOpt markRow rowIdOpt freshId hex
  cases textOpt with
  | none => exact ⟨rfl, rfl, rfl, rfl⟩
  | some t0 =>
    simp only [reducer, Option.map_some']
    by_cases he : (jsTrim t0).isEmpty = true
    · rw [if_pos he]
      exact ⟨rfl, rfl, rfl, rfl⟩
    · rw [if_neg he]
      by_cases hscope : orDefault scopeOpt s.ui.mode = "campaign".toList
      · rw [if_pos hscope]
        have hexl :
            existsInList (jsTrim t0)
              ((objGet s.negatives.byCampaign (normCampaignName campaignOpt)).getD []) = true := by
          obtain ⟨x, hx, hxe⟩ := hex
          rw [targetedNegList, if_pos hscope] at hx
          exact List.any_eq_true.mpr ⟨x, hx, by simpa using hxe⟩
        rw [if_pos hexl]
        exact ⟨rfl, rfl, rfl, rfl⟩
      · rw [if_neg hscope]
        have hexl : existsInList (jsTrim t0) s.negatives.items = true := by
          obtain ⟨x, hx, hxe⟩ := hex
          rw [targetedNegList, if_neg hscope] at hx
          exact List.any_eq_true.mpr ⟨x, hx, by simpa using hxe⟩
        rw [if_pos hexl]
        exact ⟨rfl, rfl, rfl, rfl⟩

/-- A concrete state with one account-level negative, for the C10
witness. -/
def exampleState : AppState :=
  { report :=
      { columns := [], rows := [], filename := none,
        searchTermColumnName := none, campaignColumnName := none,
        adGroupColumnName := none, warnings := [], error := none }
    negatives :=
      { items := [{ id := "u1".toList, text := "hi".toList, matchType := "broad".toList }]
        byCampaign := [] }
    ui := { markedRowIds := [], mode := "account".toList, selectedCampaign := [] } }

/-- Witness for C10: re-adding `"  HI "` (normalizing to an existing text)
leaves the negatives untouched. -/
theorem C10_witness :
    (reducer exampleState
        (Action.addNegative (some "  HI ".toList) none none none false none
          "u2".toList)).negatives = exampleState.negatives :=
  (C10_reducer_unique.2 exampleState (some "  HI ".toList) none none none false
    none "u2".toList (by decide)).1

end NKT
